import Mathlib

/-!
Verification of the free-page reporting/hinting core of this kernel tree.

The file shallowly embeds the functions of `mm/page_reporting.c`,
`mm/page_hinting.c` (which contains two concatenated variants of the page
hinting core; we suffix the first variant's clashing names with `_v1`) and the
inline hooks of `include/linux/page_reporting.h`.  Machine integers are
modelled as `Nat` with explicit 64-bit wrap-around where the C code can
underflow (`pfn - base_pfn` on `unsigned long`).  The buddy allocator itself
is an external collaborator (spec §6.2): its observable answers during one
scan (`pfn_to_online_page`, `PageBuddy`, `page_private`,
`get_pageblock_migratetype`, isolation results) are supplied by oracle
functions, which covers every allocator behaviour because each block is
consulted at most once per scan.  The scanners are modelled as functions that
also produce an explicit event trace (lock/unlock, re-validation reads, bit
clears, isolations, batch appends, report callbacks, releases); the temporal
claims are statements about those traces.
-/

/-- Bit width of `unsigned long` on the 64-bit targets this tree builds for. -/
def WORD : Nat := 2 ^ 64

/-- `MAX_ORDER` of the buddy allocator (default x86-64 configuration). -/
def MAX_ORDER : Nat := 11

/-- `PAGE_REPORTING_MIN_ORDER` is `pageblock_order` in
`include/linux/page_reporting.h`; 9 on x86-64 with 4 KiB base pages. -/
def PAGE_REPORTING_MIN_ORDER : Nat := 9

/-- `PAGE_HINTING_MIN_ORDER` is `MAX_ORDER - 1` in
`include/linux/page_hinting.h`. -/
def PAGE_HINTING_MIN_ORDER : Nat := MAX_ORDER - 1

/-- `HINTING_MEM_THRESHOLD` from `include/linux/page_hinting.h`. -/
def HINTING_MEM_THRESHOLD : Int := 16

/-- C `unsigned long` subtraction `a - b`, wrapping modulo `2^64`. -/
def usub64 (a b : Nat) : Nat := (a % WORD + (WORD - b % WORD)) % WORD

/-- Reading bit `i` of a bitmap (`test_bit`); bits beyond the list are 0. -/
def testBit (bm : List Bool) (i : Nat) : Bool := bm.getD i false

/-- Setting bit `i` of a bitmap (`set_bit` / the set half of
`test_and_set_bit`). -/
def setBit (bm : List Bool) (i : Nat) : List Bool := bm.set i true

/-- Clearing bit `i` of a bitmap (`clear_bit`). -/
def clearBit (bm : List Bool) (i : Nat) : List Bool := bm.set i false

theorem testBit_setBit_self {bm : List Bool} {i : Nat} (h : i < bm.length) :
    testBit (setBit bm i) i = true := by
  induction bm generalizing i with
  | nil => simp at h
  | cons b tl ih =>
    cases i with
    | zero => simp [testBit, setBit]
    | succ n =>
      simp only [setBit, List.set, testBit, List.getD, List.get?] at *
      exact ih (by simpa using h)

theorem testBit_setBit_ne {bm : List Bool} {i j : Nat} (h : j ≠ i) :
    testBit (setBit bm i) j = testBit bm j := by
  induction bm generalizing i j with
  | nil => simp [testBit, setBit]
  | cons b tl ih =>
    cases i with
    | zero =>
      cases j with
      | zero => exact absurd rfl h
      | succ m => simp [testBit, setBit]
    | succ n =>
      cases j with
      | zero => simp [testBit, setBit]
      | succ m =>
        simp only [setBit, List.set, testBit, List.getD, List.get?]
        exact ih (fun hc => h (by simp [hc]))

theorem setBit_of_testBit {bm : List Bool} {i : Nat}
    (h : testBit bm i = true) : setBit bm i = bm := by
  induction bm generalizing i with
  | nil => simp [setBit]
  | cons b tl ih =>
    cases i with
    | zero => simp_all [testBit, setBit]
    | succ n =>
      simp only [testBit, List.getD, List.get?] at h
      simp [setBit, List.set]
      exact ih h

theorem length_setBit (bm : List Bool) (i : Nat) :
    (setBit bm i).length = bm.length := by
  simp [setBit]

/-- Allocator-side state of one page-frame, as the scanner observes it:
`pfn_to_online_page` success, `PageBuddy`, `page_private` (the buddy order)
and `get_pageblock_migratetype`. -/
structure PageInfo where
  online : Bool
  buddy : Bool
  order : Nat
  mt : Nat
deriving DecidableEq, Repr

/-- Observable events of one scanner invocation. -/
inductive Ev where
  /-- `spin_lock(&zone->lock)`. -/
  | lock : Ev
  /-- `spin_unlock(&zone->lock)`. -/
  | unlock : Ev
  /-- The re-validation read of allocator state for the block at `pfn`
  (`PageBuddy(page)` / `page_private(page)`). -/
  | validate (pfn : Nat) : Ev
  /-- `clear_bit(i, bitmap)`. -/
  | clear (i : Nat) : Ev
  /-- A successful isolation of the block at `pfn` with this order and
  migratetype (`start_isolate_page_range` ≥ 0, resp. nonzero
  `__isolate_free_page`). -/
  | isolate (pfn order mt : Nat) : Ev
  /-- A failed isolation attempt (`start_isolate_page_range` < 0). -/
  | isolfail (pfn : Nat) : Ev
  /-- `undo_isolate_page_range` for a block that failed the post-isolation
  `test_pages_isolated` check. -/
  | undo (pfn order mt : Nat) : Ev
  /-- `sg_set_page`: the block is appended to the staging scatterlist. -/
  | append (pfn order : Nat) : Ev
  /-- The report callback is invoked with this staged batch. -/
  | report (batch : List (Nat × Nat)) : Ev
  /-- The block is reinserted into the buddy at this order and migratetype
  (`__return_isolated_page` / `free_one_page`). -/
  | release (pfn order mt : Nat) : Ev
deriving DecidableEq, Repr

/-- Per-zone candidate index.  Models `struct zone_reporting_bitmap` of
`mm/page_reporting.c` (fields `bitmap`, `base_pfn`, `nbits`, `free_pages`),
and equally `struct hinting_bitmap` (`free_mem_cnt` plays the part of
`free_pages`) and `struct zone_free_area` of `mm/page_hinting.c`.
`free_pages` is an `atomic_t` counter, modelled as an `Int`. -/
structure RBitmap where
  bitmap : Option (List Bool)
  base_pfn : Nat
  nbits : Nat
  free_pages : Int
deriving DecidableEq, Repr

instance : Inhabited RBitmap := ⟨⟨none, 0, 0, 0⟩⟩

/-- Well-formedness established by `zone_bitmap_alloc`: `nbits` is the
allocated size of the bitmap. -/
def RBitmap.WF (rb : RBitmap) : Prop :=
  ∀ bm, rb.bitmap = some bm → rb.nbits ≤ bm.length

/-- The bit index `bitnr = (pfn - base_pfn) >> PAGE_REPORTING_MIN_ORDER`
computed by `bitmap_set_bit` in `mm/page_reporting.c` (unsigned wrap-around
subtraction). -/
def bitnrOfR (rb : RBitmap) (pfn : Nat) : Nat :=
  usub64 pfn rb.base_pfn >>> PAGE_REPORTING_MIN_ORDER

/-- The bit index computed by `pfn_to_bit` in `mm/page_hinting.c`
(`PAGE_HINTING_MIN_ORDER` granularity). -/
def bitnrOfH (rb : RBitmap) (pfn : Nat) : Nat :=
  usub64 pfn rb.base_pfn >>> PAGE_HINTING_MIN_ORDER

/-- `bitmap_set_bit` of `mm/page_reporting.c` (lines 64-81): bail out on a
NULL bitmap, then `if (bitnr < nbits && !test_and_set_bit(...))` increment
`free_pages`. -/
def bitmap_set_bit (pfn : Nat) (rb : RBitmap) : RBitmap :=
  match rb.bitmap with
  | none => rb
  | some bm =>
    let bitnr := bitnrOfR rb pfn
    if bitnr < rb.nbits then
      if testBit bm bitnr then
        { rb with bitmap := some (setBit bm bitnr) }
      else
        { rb with bitmap := some (setBit bm bitnr),
                  free_pages := rb.free_pages + 1 }
    else rb

/-- `bm_set_pfn` of the first `mm/page_hinting.c` variant (lines 157-170):
`if (bitmap && bitnr < nbits && !test_and_set_bit(...))` increment
`free_mem_cnt`. -/
def bm_set_pfn (pfn : Nat) (rb : RBitmap) : RBitmap :=
  match rb.bitmap with
  | none => rb
  | some bm =>
    let bitnr := bitnrOfH rb pfn
    if bitnr < rb.nbits then
      if testBit bm bitnr then
        { rb with bitmap := some (setBit bm bitnr) }
      else
        { rb with bitmap := some (setBit bm bitnr),
                  free_pages := rb.free_pages + 1 }
    else rb

/-- `bitmap_set_bit` of the second `mm/page_hinting.c` variant
(lines 489-503), structurally identical to `bm_set_pfn`. -/
def bitmap_set_bit_h (pfn : Nat) (rb : RBitmap) : RBitmap :=
  bm_set_pfn pfn rb

/-! ### Allocator hooks (enqueue paths) -/

/-- Configuration `struct page_reporting_config` as far as the enqueue hook
reads it: `max_pages` and the `PAGE_REPORTING_ACTIVE` flag bit. -/
structure RConf where
  max_pages : Int
  active : Bool
deriving DecidableEq, Repr

/-- State touched by `__page_reporting_enqueue`: the published configuration
pointer, the zone's published `zone_reporting_bitmap` pointer, and whether a
reporting job has been scheduled on the workqueue. -/
structure REnqState where
  conf : Option RConf
  rb : Option RBitmap
  workScheduled : Bool
deriving DecidableEq, Repr

/-- `__page_reporting_enqueue` of `mm/page_reporting.c` (lines 232-268). -/
def page_reporting_enqueue_core (pfn : Nat) (st : REnqState) : REnqState :=
  match st.conf with
  | none => st
  | some phconf =>
    match st.rb with
    | none => st
    | some rbitmap =>
      let rb' := bitmap_set_bit pfn rbitmap
      if rb'.free_pages < phconf.max_pages ∨ phconf.active then
        { st with rb := some rb' }
      else
        { conf := some { phconf with active := true },
          rb := some rb', workScheduled := true }

/-- The inline hook `page_reporting_enqueue` of
`include/linux/page_reporting.h` (src/unnamed/part_015, lines 43-48):
frees of order below `PAGE_REPORTING_MIN_ORDER` are filtered out before
`__page_reporting_enqueue` runs. -/
def page_reporting_enqueue (pfn : Nat) (order : Nat) (st : REnqState) :
    REnqState :=
  if order < PAGE_REPORTING_MIN_ORDER then st
  else page_reporting_enqueue_core pfn st

/-- State of the first `mm/page_hinting.c` variant as `page_hinting_enqueue`
sees it: the `hcb` callback pointer, the `bm_zone` array, and whether a job
was queued. -/
structure H1EnqState where
  hcb : Bool
  bm_zone : List RBitmap
  workQueued : Bool
deriving DecidableEq, Repr

/-- `check_hinting_threshold` of the first `mm/page_hinting.c` variant
(lines 220-230). -/
def check_hinting_threshold (st : H1EnqState) : Bool :=
  st.bm_zone.any (fun rb => HINTING_MEM_THRESHOLD ≤ rb.free_pages)

/-- `page_hinting_enqueue` of the first `mm/page_hinting.c` variant
(lines 258-271): marks the freed page only when a callback is registered and
the order is at least `PAGE_HINTING_MIN_ORDER`, otherwise returns at once. -/
def page_hinting_enqueue (pfn zonenum order : Nat) (st : H1EnqState) :
    H1EnqState :=
  if st.hcb ∧ PAGE_HINTING_MIN_ORDER ≤ order then
    let st := { st with
      bm_zone := st.bm_zone.set zonenum
        (bm_set_pfn pfn (st.bm_zone.getD zonenum default)) }
    if check_hinting_threshold st then { st with workQueued := true } else st
  else st

/-! ### The reporting scanner, `mm/page_reporting.c` -/

/-- All allocator answers one `scan_zone_bitmap` invocation can observe,
plus the batch capacity and the zone's `base_pfn`.  Each block is consulted
at most once per scan, so arbitrary functions of the pfn cover every
allocator behaviour, including concurrent mutation between bits. -/
structure RepCfg where
  alloc : Nat → PageInfo
  /-- Result of `start_isolate_page_range` (`true` iff ≥ 0). -/
  startIsolateOk : Nat → Bool
  /-- Result of `test_pages_isolated` (`true` iff it is not `-EBUSY`). -/
  pagesIsolatedOk : Nat → Bool
  max_pages : Nat
  base_pfn : Nat

/-- The pfn examined for bit `setbit`:
`(setbit << PAGE_REPORTING_MIN_ORDER) + base_pfn`. -/
def pfnOfBitR (cfg : RepCfg) (i : Nat) : Nat :=
  (i <<< PAGE_REPORTING_MIN_ORDER) + cfg.base_pfn

/-- Scanner-local state: the `count` variable, the staging scatterlist
content (pfn and `page_private` order of each `sg_set_page` entry), the
zone's `free_pages` counter, and the event trace so far. -/
structure ASt where
  count : Nat
  batch : List (Nat × Nat)
  free_pages : Int
  trace : List Ev
deriving Repr

/-- `process_free_page` of `mm/page_reporting.c` (lines 83-114): read order
and migratetype, `start_isolate_page_range`; on success either stage the
block (`sg_set_page`, `count++`) if `test_pages_isolated` agrees, or undo
the isolation. -/
def process_free_page (cfg : RepCfg) (pfn order mt : Nat) (st : ASt) : ASt :=
  if cfg.startIsolateOk pfn = false then
    { st with trace := st.trace ++ [.isolfail pfn] }
  else if cfg.pagesIsolatedOk pfn then
    { st with count := st.count + 1,
              batch := st.batch ++ [(pfn, order)],
              trace := st.trace ++ [.isolate pfn order mt, .append pfn order] }
  else
    { st with trace := st.trace ++ [.isolate pfn order mt, .undo pfn order mt] }

/-- `return_isolated_page` of `mm/page_reporting.c` (lines 53-62): walk the
scatterlist up to its end mark and hand each page to
`__return_isolated_page`.  The latter is an allocator primitive not in this
tree; per spec §6.2 `release` it reinserts the block at its stored
`page_private` order and its pageblock migratetype. -/
def return_isolated_page (cfg : RepCfg) (batch : List (Nat × Nat)) : List Ev :=
  batch.map (fun e => .release e.1 e.2 (cfg.alloc e.1).mt)

/-- Body of the `for_each_set_bit` loop of `scan_zone_bitmap` for an online
page, before the batch-full check: the `PageBuddy`/`page_private`
re-validation, possibly `process_free_page`, then `clear_bit` and the
`free_pages` decrement.  Note the `spin_lock_irqsave`/`spin_unlock_irqrestore`
pair around the re-validation is commented out in the source (lines 149,
159), so no lock events occur. -/
def scanBitOnline (cfg : RepCfg) (i : Nat) (st : ASt) : ASt :=
  let pfn := pfnOfBitR cfg i
  let p := cfg.alloc pfn
  let st1 := { st with trace := st.trace ++ [.validate pfn] }
  let st2 := if p.buddy ∧ PAGE_REPORTING_MIN_ORDER ≤ p.order then
               process_free_page cfg pfn p.order p.mt st1
             else st1
  { st2 with free_pages := st2.free_pages - 1,
             trace := st2.trace ++ [.clear i] }

/-- The events `scan_zone_bitmap` emits while handling one set bit whose
page is still online (trace of `scanBitOnline` from an empty trace). -/
def bitEventsA (cfg : RepCfg) (i : Nat) : List Ev :=
  (scanBitOnline cfg i ⟨0, [], 0, []⟩).trace

/-- One full iteration of the `for_each_set_bit` loop of `scan_zone_bitmap`
(lines 138-177): offline pages just get their bit cleared; otherwise
`scanBitOnline` runs and a full batch (`count >= max_pages`) is reported and
returned to the buddy. -/
def scanBitStep (cfg : RepCfg) (i : Nat) (st : ASt) : ASt :=
  let pfn := pfnOfBitR cfg i
  if (cfg.alloc pfn).online = false then
    { st with free_pages := st.free_pages - 1,
              trace := st.trace ++ [.clear i] }
  else
    let st := scanBitOnline cfg i st
    if cfg.max_pages ≤ st.count then
      { st with count := 0, batch := [],
                trace := st.trace ++ [.report st.batch] ++
                  return_isolated_page cfg st.batch }
    else st

/-- Ascending indices of the set bits of a bitmap.  `for_each_set_bit`
iterates exactly these: the loop only ever clears the current bit, which the
subsequent `find_next_bit` from `setbit + 1` never revisits, and nothing
sets bits during the (single-threaded) scan. -/
def setIndices (bm : List Bool) : List Nat :=
  (List.range bm.length).filter (fun i => testBit bm i)

/-- `scan_zone_bitmap` of `mm/page_reporting.c` (lines 128-189): iterate the
set bits, then report and return any non-empty trailing partial batch. -/
def scan_zone_bitmap (cfg : RepCfg) (bm : List Bool) (fp0 : Int) : ASt :=
  let final := (setIndices bm).foldl (fun st i => scanBitStep cfg i st)
    ⟨0, [], fp0, []⟩
  if final.count ≠ 0 then
    { final with count := 0, batch := [],
                 trace := final.trace ++ [.report final.batch] ++
                   return_isolated_page cfg final.batch }
  else final

/-! ### The hinting scanner of the second `mm/page_hinting.c` variant -/

/-- Allocator answers observable by one `scan_zone_free_area` invocation:
`isolateOk pfn` is `true` iff `__isolate_free_page` returns nonzero. -/
structure HCfg where
  alloc : Nat → PageInfo
  isolateOk : Nat → Bool
  max_pages : Nat
  base_pfn : Nat

/-- The pfn examined for bit `setbit`:
`(setbit << PAGE_HINTING_MIN_ORDER) + base_pfn`. -/
def pfnOfBitH (cfg : HCfg) (i : Nat) : Nat :=
  (i <<< PAGE_HINTING_MIN_ORDER) + cfg.base_pfn

/-- Scanner-local state of `scan_zone_free_area`.  `ret` and `order` model
the C locals of the same names, which are declared without an initializer
(`int order, ret, isolated_cnt = 0;`): until first assigned they hold
whatever indeterminate values were on the stack, so a run of the model is
parameterized by their initial values. -/
structure BSt where
  ret : Bool
  order : Nat
  isolated_cnt : Nat
  batch : List (Nat × Nat)
  trace : List Ev
deriving Repr

/-- `release_isolated_pages` of `mm/page_hinting.c` (lines 474-487): walk
the scatterlist and `free_one_page` each entry at its stored `page_private`
order and its current pageblock migratetype. -/
def release_isolated_pages (cfg : HCfg) (batch : List (Nat × Nat)) : List Ev :=
  batch.map (fun e => .release e.1 e.2 (cfg.alloc e.1).mt)

/-- The critical section of one `scan_zone_free_area` iteration for an
online page (lines 534-543): `spin_lock`, the `PageBuddy`/`page_private`
re-validation, `__isolate_free_page` when the block is still a free buddy
block of sufficient order, then `clear_bit` and `spin_unlock`. -/
def freeAreaLockedEvents (cfg : HCfg) (i : Nat) : List Ev :=
  let pfn := pfnOfBitH cfg i
  let p := cfg.alloc pfn
  [Ev.lock, Ev.validate pfn]
  ++ (if p.buddy ∧ PAGE_HINTING_MIN_ORDER ≤ p.order ∧ cfg.isolateOk pfn then
        [Ev.isolate pfn p.order p.mt] else [])
  ++ [Ev.clear i, Ev.unlock]

/-- One full iteration of the `for_each_set_bit` loop of
`scan_zone_free_area` (lines 527-566).  An offline page is skipped entirely
(`continue` before the lock; its bit stays set).  Otherwise the critical
section runs (assigning `ret`/`order` only when the block re-validates),
then `if (ret)` stages the block at the current value of `order` and a batch
of exactly `max_pages` is reported and released; `ret = 0` ends the body. -/
def scanFreeAreaStep (cfg : HCfg) (i : Nat) (st : BSt) : BSt :=
  let pfn := pfnOfBitH cfg i
  let p := cfg.alloc pfn
  if p.online = false then st
  else
    let valid := p.buddy ∧ PAGE_HINTING_MIN_ORDER ≤ p.order
    let ret := if valid then cfg.isolateOk pfn else st.ret
    let order := if valid then p.order else st.order
    let st1 : BSt :=
      { st with ret := ret, order := order,
                trace := st.trace ++ freeAreaLockedEvents cfg i }
    if st1.ret then
      let batch := st1.batch ++ [(pfn, st1.order)]
      let cnt := st1.isolated_cnt + 1
      let tr := st1.trace ++ [.append pfn st1.order]
      if cnt = cfg.max_pages then
        { ret := false, order := st1.order, isolated_cnt := 0, batch := [],
          trace := tr ++ [.report batch] ++ release_isolated_pages cfg batch }
      else
        { st1 with ret := false, isolated_cnt := cnt, batch := batch,
                   trace := tr }
    else
      { st1 with ret := false }

/-- `scan_zone_free_area` of `mm/page_hinting.c` (lines 516-577), run with
initial (indeterminate) values `ret0`/`order0` for the uninitialized locals
`ret`/`order`: iterate the set bits, then report and release any non-empty
trailing partial batch. -/
def scan_zone_free_area (cfg : HCfg) (bm : List Bool) (ret0 : Bool)
    (order0 : Nat) : BSt :=
  let final := (setIndices bm).foldl (fun st i => scanFreeAreaStep cfg i st)
    ⟨ret0, order0, 0, [], []⟩
  if final.isolated_cnt ≠ 0 then
    { final with isolated_cnt := 0, batch := [],
                 trace := final.trace ++ [.report final.batch] ++
                   release_isolated_pages cfg final.batch }
  else final

/-! ### The hinting scanner of the first `mm/page_hinting.c` variant -/

/-- `find_next_bit(bitmap, nbits, start)`: the smallest set bit index in
`[start, nbits)`, or `nbits` when there is none. -/
def find_next_bit (bm : List Bool) (nbits start : Nat) : Nat :=
  if h : start < nbits then
    if testBit bm start then start else find_next_bit bm nbits (start + 1)
  else nbits
termination_by nbits - start

/-- Configuration for `scan_hinting_bitmap`: allocator answers, the zone's
`bm_zone` slot geometry, and the `hcb->hint_page` callback is recorded as
events. -/
structure H1Cfg where
  alloc : Nat → PageInfo
  isolateOk : Nat → Bool
  base_pfn : Nat
  nbits : Nat

/-- Loop state of `scan_hinting_bitmap`: the `start` cursor, the (mutable)
bitmap, the `scan_cnt` counter and the `hint_page(phys_addr, len)` calls
made so far (recorded as the pfn and order of each hinted block). -/
structure H1St where
  start : Nat
  bitmap : List Bool
  scan_cnt : Nat
  hints : List (Nat × Nat)
deriving Repr

/-- The `for (;;)` loop of `scan_hinting_bitmap` of the first
`mm/page_hinting.c` variant (lines 184-213), as a fuel-indexed function:
`none` means the loop has not terminated within `fuel` iterations.  Note the
faithful modelling of the `continue` for an offline page (line 193), which
re-enters the loop WITHOUT advancing `start` and without clearing the bit:
the state is unchanged. -/
def scanHintingLoop (cfg : H1Cfg) : Nat → H1St → Option H1St
  | 0, _ => none
  | fuel + 1, st =>
    let sb := find_next_bit st.bitmap cfg.nbits st.start
    if cfg.nbits ≤ sb then some st
    else
      let pfn := (sb <<< PAGE_HINTING_MIN_ORDER) + cfg.base_pfn
      let p := cfg.alloc pfn
      if p.online = false then scanHintingLoop cfg fuel st
      else
        let valid := p.buddy ∧ PAGE_HINTING_MIN_ORDER ≤ p.order
        let ret := valid ∧ cfg.isolateOk pfn
        scanHintingLoop cfg fuel
          { start := sb + 1,
            bitmap := clearBit st.bitmap sb,
            scan_cnt := st.scan_cnt + 1,
            hints := st.hints ++ if ret then [(pfn, p.order)] else [] }

/-! ### Lifecycle control: the enable paths -/

/-- A bump allocator tracking live heap objects by id.  `ok n` decides
whether the `n`-th allocation request of the run succeeds; ids are unique,
so freeing removes exactly one object. -/
structure Heap where
  next : Nat
  live : List Nat
deriving DecidableEq, Repr

/-- One `kmalloc`/`kcalloc`/`bitmap_zalloc` request. -/
def halloc (ok : Nat → Bool) (h : Heap) : Option Nat × Heap :=
  if ok h.next then
    (some h.next, { next := h.next + 1, live := h.live ++ [h.next] })
  else (none, { h with next := h.next + 1 })

/-- `kfree`/`bitmap_free` of a live object. -/
def hfree (id : Nat) (h : Heap) : Heap :=
  { h with live := h.live.filter (fun x => x != id) }

/-- Zone geometry snapshot (`zone->zone_start_pfn`, `zone_end_pfn(zone)`;
`spanned_pages` is their difference). -/
structure RZone where
  zone_start_pfn : Nat
  zone_end_pfn : Nat
deriving DecidableEq, Repr

/-- A published `struct zone_reporting_bitmap`: its own `kmalloc` id, the
`bitmap_zalloc` id of its bitmap, and the snapshotted fields. -/
structure PubRB where
  structId : Nat
  bitmapId : Option Nat
  base_pfn : Nat
  end_pfn : Nat
  nbits : Nat
deriving DecidableEq, Repr

/-- Process-wide page reporting state: the `page_reporting_conf` publication
pointer, each populated zone's `zone->reporting_bitmap` pointer, and the
heap. -/
structure RepSys where
  conf_published : Bool
  zones : List (Option PubRB)
  heap : Heap
deriving DecidableEq, Repr

/-- `zone_reporting_cleanup` of `mm/page_reporting.c` (lines 274-299): for
every zone with a published `reporting_bitmap`, unpublish it, free its
bitmap and `kfree` the struct. -/
def zone_reporting_cleanup (sys : RepSys) : RepSys :=
  { sys with
    zones := sys.zones.map (fun _ => (none : Option PubRB)),
    heap := sys.zones.foldl (fun h z =>
      match z with
      | none => h
      | some rb =>
        hfree rb.structId (match rb.bitmapId with
          | none => h
          | some b => hfree b h)) sys.heap }

/-- The loop of `zone_reporting_init` of `mm/page_reporting.c`
(lines 325-364) over the populated zones, with `zone_bitmap_alloc`
(lines 301-317) inlined: `kmalloc` the struct, snapshot the zone bounds,
allocate the bitmap of `(pages >> PAGE_REPORTING_MIN_ORDER) + 1` bits, and
publish via `rcu_assign_pointer`.  On any allocation failure run
`zone_reporting_cleanup` and return `-ENOMEM`; note the struct `kmalloc`-ed
for the failing zone has not yet been published, so the cleanup does not
reach it. -/
def zone_reporting_init_go (ok : Nat → Bool) (zds : List RZone) (k : Nat)
    (sys : RepSys) : Int × RepSys :=
  match zds with
  | [] => (0, sys)
  | z :: rest =>
    let alloc1 := halloc ok sys.heap
    match alloc1.1 with
    | none => (-12, zone_reporting_cleanup { sys with heap := alloc1.2 })
    | some sid =>
      let pages := z.zone_end_pfn - z.zone_start_pfn
      let bitmap_size := (pages >>> PAGE_REPORTING_MIN_ORDER) + 1
      if bitmap_size = 0 then
        zone_reporting_init_go ok rest (k + 1)
          { sys with heap := alloc1.2,
                     zones := sys.zones.set k
                       (some ⟨sid, none, z.zone_start_pfn, z.zone_end_pfn,
                              0⟩) }
      else
        let alloc2 := halloc ok alloc1.2
        match alloc2.1 with
        | none => (-12, zone_reporting_cleanup { sys with heap := alloc2.2 })
        | some bid =>
          zone_reporting_init_go ok rest (k + 1)
            { sys with heap := alloc2.2,
                       zones := sys.zones.set k
                         (some ⟨sid, some bid, z.zone_start_pfn,
                                z.zone_end_pfn, bitmap_size⟩) }

/-- `page_reporting_enable` of `mm/page_reporting.c` (lines 390-425):
`-EBUSY` if a configuration is already published; `kcalloc` the scatterlist;
initialize the per-zone bitmaps (freeing the scatterlist again on failure);
publish the configuration on success. -/
def page_reporting_enable (ok : Nat → Bool) (zds : List RZone)
    (sys : RepSys) : Int × RepSys :=
  if sys.conf_published then (-16, sys)
  else
    let alloc1 := halloc ok sys.heap
    match alloc1.1 with
    | none => (-12, { sys with heap := alloc1.2 })
    | some sgid =>
      let r := zone_reporting_init_go ok zds 0 { sys with heap := alloc1.2 }
      if r.1 < 0 then (r.1, { r.2 with heap := hfree sgid r.2.heap })
      else (0, { r.2 with conf_published := true })

/-- C `ALIGN(x, a)` as compiled for 64-bit `unsigned long`:
`(x + a - 1) & ~(a - 1)`. -/
def c_align (x a : Nat) : Nat := (x + a - 1) &&& (WORD - a)

/-- `find_bitmap_size` of the first `mm/page_hinting.c` variant
(lines 73-80); note the source passes the order `PAGE_HINTING_MIN_ORDER`
itself (not a power of two) as the alignment. -/
def find_bitmap_size (spanned_pages : Nat) : Nat :=
  c_align spanned_pages PAGE_HINTING_MIN_ORDER >>> PAGE_HINTING_MIN_ORDER

/-- A populated `bm_zone[idx]` slot of the first `mm/page_hinting.c`
variant. -/
structure PubBM where
  bitmapId : Nat
  base_pfn : Nat
  nbits : Nat
deriving DecidableEq, Repr

/-- Process-wide state of the first `mm/page_hinting.c` variant: the `hcb`
callback pointer, the `bm_zone` array, whether some `zone->lock` is held,
and the heap. -/
structure H1Sys where
  hcb : Bool
  bm_zone : List (Option PubBM)
  lockHeld : Bool
  heap : Heap
deriving DecidableEq, Repr

/-- The per-zone loop of `page_hinting_enable` of the first
`mm/page_hinting.c` variant (lines 82-102): take the zone lock, allocate
the bitmap, and on failure return immediately — with no error value (the
function is `void`), with the zone lock still held, and with the bitmaps of
the earlier zones neither freed nor torn down.  On success of every zone,
set `hcb`. -/
def page_hinting_enable_v1_go (ok : Nat → Bool) (zones : List RZone)
    (idx : Nat) (sys : H1Sys) : H1Sys :=
  match zones with
  | [] => { sys with hcb := true }
  | z :: rest =>
    let sys1 := { sys with lockHeld := true }
    let bitmap_size := find_bitmap_size (z.zone_end_pfn - z.zone_start_pfn)
    let alloc1 := halloc ok sys1.heap
    match alloc1.1 with
    | none => { sys1 with heap := alloc1.2 }
    | some bid =>
      page_hinting_enable_v1_go ok rest (idx + 1)
        { sys1 with heap := alloc1.2, lockHeld := false,
                    bm_zone := sys1.bm_zone.set idx
                      (some ⟨bid, z.zone_start_pfn, bitmap_size⟩) }

/-- `page_hinting_enable` of the first `mm/page_hinting.c` variant
(lines 82-102). -/
def page_hinting_enable_v1 (ok : Nat → Bool) (zones : List RZone)
    (sys : H1Sys) : H1Sys :=
  page_hinting_enable_v1_go ok zones 0 sys

/-- One `free_area[idx]` slot of the second `mm/page_hinting.c` variant. -/
structure FASlot where
  base_pfn : Nat
  end_pfn : Nat
  bitmapId : Option Nat
  nbits : Nat
deriving DecidableEq, Repr

instance : Inhabited FASlot := ⟨⟨0, 0, none, 0⟩⟩

/-- Process-wide state of the second `mm/page_hinting.c` variant: the
`page_hinting_conf` publication pointer, the `free_area[MAX_NR_ZONES]`
array, and the heap. -/
structure H2Sys where
  conf_published : Bool
  free_area : List FASlot
  heap : Heap
deriving DecidableEq, Repr

/-- `zone_free_area_cleanup` of the second `mm/page_hinting.c` variant
(lines 317-329): free and zero the first `nr_zones` slots. -/
def zone_free_area_cleanup (nr : Nat) (sys : H2Sys) : H2Sys :=
  (List.range nr).foldl (fun s idx =>
    let slot := s.free_area.getD idx default
    { s with
      heap := (match slot.bitmapId with
               | none => s.heap
               | some b => hfree b s.heap),
      free_area := s.free_area.set idx ⟨0, 0, none, 0⟩ }) sys

/-- The first loop of `zone_free_area_init` (lines 360-385): merge each
populated zone's `[zone_start_pfn, zone_start_pfn + spanned_pages)` range
into its `free_area[zone_idx]` slot (`CONFIG_ZONE_DEVICE` is not set, so no
index is skipped). -/
def zone_free_area_merge (zones : List (Nat × RZone)) (fa : List FASlot) :
    List FASlot :=
  zones.foldl (fun fa z =>
    let slot := fa.getD z.1 default
    let start := z.2.zone_start_pfn
    let zend := z.2.zone_start_pfn +
      (z.2.zone_end_pfn - z.2.zone_start_pfn)
    let slot' :=
      if slot.base_pfn ≠ 0 then
        { slot with base_pfn := min slot.base_pfn start,
                    end_pfn := max slot.end_pfn zend }
      else
        { slot with base_pfn := start, end_pfn := zend }
    fa.set z.1 slot') fa

/-- The second loop of `zone_free_area_init` (lines 387-398) with
`zone_bitmap_alloc` (lines 331-350) inlined, counting down the remaining
indices: allocate each slot's bitmap of
`(pages >> PAGE_HINTING_MIN_ORDER) + 1` bits; on failure clean the slots
before this one and return `-ENOMEM`. -/
def zone_free_area_init_go (ok : Nat → Bool) (n idx : Nat) (sys : H2Sys) :
    Int × H2Sys :=
  match n with
  | 0 => (0, sys)
  | m + 1 =>
    let slot := sys.free_area.getD idx default
    let pages := slot.end_pfn - slot.base_pfn
    let bitmap_size := (pages >>> PAGE_HINTING_MIN_ORDER) + 1
    if bitmap_size = 0 then zone_free_area_init_go ok m (idx + 1) sys
    else
      let alloc1 := halloc ok sys.heap
      match alloc1.1 with
      | none => (-12, zone_free_area_cleanup idx { sys with heap := alloc1.2 })
      | some bid =>
        zone_free_area_init_go ok m (idx + 1)
          { sys with heap := alloc1.2,
                     free_area := sys.free_area.set idx
                       { slot with bitmapId := some bid,
                                   nbits := bitmap_size } }

/-- `page_hinting_enable` of the second `mm/page_hinting.c` variant
(lines 404-435): `-EBUSY` if a configuration is already published;
`kcalloc` the scatterlist; merge zone bounds and allocate every
`free_area` bitmap (freeing the scatterlist again on failure); publish the
configuration on success. -/
def page_hinting_enable (ok : Nat → Bool) (zones : List (Nat × RZone))
    (sys : H2Sys) : Int × H2Sys :=
  if sys.conf_published then (-16, sys)
  else
    let alloc1 := halloc ok sys.heap
    match alloc1.1 with
    | none => (-12, { sys with heap := alloc1.2 })
    | some sgid =>
      let sys1 :=
        { sys with heap := alloc1.2,
                   free_area := zone_free_area_merge zones sys.free_area }
      let r := zone_free_area_init_go ok sys1.free_area.length 0 sys1
      if r.1 < 0 then (r.1, { r.2 with heap := hfree sgid r.2.heap })
      else (0, { r.2 with conf_published := true })

/-! ### Trace observations -/

/-- Successful isolations recorded in one event. -/
def isolOf : Ev → List (Nat × Nat × Nat)
  | .isolate p o m => [(p, o, m)]
  | _ => []

/-- Releases back to the buddy recorded in one event (an undo of a
just-isolated range or a reinsertion after reporting). -/
def relOf : Ev → List (Nat × Nat × Nat)
  | .undo p o m => [(p, o, m)]
  | .release p o m => [(p, o, m)]
  | _ => []

/-- Scatterlist appends recorded in one event. -/
def appOf : Ev → List (Nat × Nat)
  | .append p o => [(p, o)]
  | _ => []

/-- Report-callback batches recorded in one event. -/
def repOf : Ev → List (List (Nat × Nat))
  | .report b => [b]
  | _ => []

/-- Concatenation of a per-event observation over a trace. -/
def evJoin (f : Ev → List α) : List Ev → List α
  | [] => []
  | e :: tr => f e ++ evJoin f tr

theorem evJoin_append (f : Ev → List α) (a b : List Ev) :
    evJoin f (a ++ b) = evJoin f a ++ evJoin f b := by
  induction a with
  | nil => simp [evJoin]
  | cons e tl ih => simp [evJoin, ih]

/-- All successful isolations of a trace, in order. -/
def isolList (tr : List Ev) : List (Nat × Nat × Nat) := evJoin isolOf tr

/-- All releases of a trace, in order. -/
def relList (tr : List Ev) : List (Nat × Nat × Nat) := evJoin relOf tr

/-- All scatterlist appends of a trace, in order. -/
def appendList (tr : List Ev) : List (Nat × Nat) := evJoin appOf tr

/-- All batches handed to the report callback, in order. -/
def reportBatches (tr : List Ev) : List (List (Nat × Nat)) := evJoin repOf tr

/-- All entries handed to the report callback, in order. -/
def reportedEntries (tr : List Ev) : List (Nat × Nat) :=
  (reportBatches tr).flatten

/-- The lengths of the batches handed to the report callback. -/
def reportLens (tr : List Ev) : List Nat :=
  (reportBatches tr).map List.length

/-- A staged batch entry together with the migratetype the allocator reports
for it (what a release of that entry reinserts it with). -/
def batchTriples (alloc : Nat → PageInfo) (b : List (Nat × Nat)) :
    List (Nat × Nat × Nat) :=
  b.map (fun e => (e.1, e.2, (alloc e.1).mt))

theorem relList_return_isolated_page (cfg : RepCfg) (b : List (Nat × Nat)) :
    relList (return_isolated_page cfg b) = batchTriples cfg.alloc b := by
  induction b with
  | nil => simp [relList, return_isolated_page, evJoin, batchTriples]
  | cons e tl ih =>
    simp only [relList, return_isolated_page, batchTriples, List.map,
      evJoin, relOf] at *
    simp [ih]

theorem isolList_return_isolated_page (cfg : RepCfg) (b : List (Nat × Nat)) :
    isolList (return_isolated_page cfg b) = [] := by
  induction b with
  | nil => simp [isolList, return_isolated_page, evJoin]
  | cons e tl ih =>
    simp only [isolList, return_isolated_page, List.map, evJoin, isolOf]
      at *
    simp [ih]

theorem appendList_return_isolated_page (cfg : RepCfg)
    (b : List (Nat × Nat)) :
    appendList (return_isolated_page cfg b) = [] := by
  induction b with
  | nil => simp [appendList, return_isolated_page, evJoin]
  | cons e tl ih =>
    simp only [appendList, return_isolated_page, List.map, evJoin, appOf]
      at *
    simp [ih]

theorem reportBatches_return_isolated_page (cfg : RepCfg)
    (b : List (Nat × Nat)) :
    reportBatches (return_isolated_page cfg b) = [] := by
  induction b with
  | nil => simp [reportBatches, return_isolated_page, evJoin]
  | cons e tl ih =>
    simp only [reportBatches, return_isolated_page, List.map, evJoin, repOf]
      at *
    simp [ih]

/-! ### Invariants of `scan_zone_bitmap` -/

theorem scanBitOnline_delta (cfg : RepCfg) (i : Nat) (st : ASt) :
    ∃ dtr db,
      scanBitOnline cfg i st =
        { count := st.count + db.length, batch := st.batch ++ db,
          free_pages := st.free_pages - 1, trace := st.trace ++ dtr } ∧
      isolList dtr = relList dtr ++ batchTriples cfg.alloc db ∧
      appendList dtr = db ∧ reportBatches dtr = [] ∧ db.length ≤ 1 ∧
      (db = [] ∨
        db = [((pfnOfBitR cfg i), (cfg.alloc (pfnOfBitR cfg i)).order)]) := by
  by_cases hv : (cfg.alloc (pfnOfBitR cfg i)).buddy ∧
      PAGE_REPORTING_MIN_ORDER ≤ (cfg.alloc (pfnOfBitR cfg i)).order
  · by_cases hs : cfg.startIsolateOk (pfnOfBitR cfg i) = false
    · refine ⟨[.validate (pfnOfBitR cfg i), .isolfail (pfnOfBitR cfg i),
        .clear i], [], ?_, ?_, ?_, ?_, ?_, ?_⟩ <;>
        simp [scanBitOnline, process_free_page, hv, hs, isolList, relList,
          appendList, reportBatches, evJoin, isolOf, relOf, appOf, repOf,
          batchTriples]
    · by_cases hp : cfg.pagesIsolatedOk (pfnOfBitR cfg i) = true
      · refine ⟨[.validate (pfnOfBitR cfg i),
          .isolate (pfnOfBitR cfg i) (cfg.alloc (pfnOfBitR cfg i)).order
            (cfg.alloc (pfnOfBitR cfg i)).mt,
          .append (pfnOfBitR cfg i) (cfg.alloc (pfnOfBitR cfg i)).order,
          .clear i],
          [((pfnOfBitR cfg i), (cfg.alloc (pfnOfBitR cfg i)).order)],
          ?_, ?_, ?_, ?_, ?_, ?_⟩ <;>
          simp [scanBitOnline, process_free_page, hv, hs, hp, isolList,
            relList, appendList, reportBatches, evJoin, isolOf, relOf,
            appOf, repOf, batchTriples]
      · refine ⟨[.validate (pfnOfBitR cfg i),
          .isolate (pfnOfBitR cfg i) (cfg.alloc (pfnOfBitR cfg i)).order
            (cfg.alloc (pfnOfBitR cfg i)).mt,
          .undo (pfnOfBitR cfg i) (cfg.alloc (pfnOfBitR cfg i)).order
            (cfg.alloc (pfnOfBitR cfg i)).mt,
          .clear i], [], ?_, ?_, ?_, ?_, ?_, ?_⟩ <;>
          simp [scanBitOnline, process_free_page, hv, hs, hp, isolList,
            relList, appendList, reportBatches, evJoin, isolOf, relOf,
            appOf, repOf, batchTriples]
  · refine ⟨[.validate (pfnOfBitR cfg i), .clear i], [], ?_, ?_, ?_, ?_,
      ?_, ?_⟩ <;>
      simp [scanBitOnline, process_free_page, hv, isolList, relList,
        appendList, reportBatches, evJoin, isolOf, relOf, appOf, repOf,
        batchTriples]

@[simp] theorem isolList_append (a b : List Ev) :
    isolList (a ++ b) = isolList a ++ isolList b := evJoin_append _ a b

@[simp] theorem relList_append (a b : List Ev) :
    relList (a ++ b) = relList a ++ relList b := evJoin_append _ a b

@[simp] theorem appendList_append (a b : List Ev) :
    appendList (a ++ b) = appendList a ++ appendList b := evJoin_append _ a b

@[simp] theorem reportBatches_append (a b : List Ev) :
    reportBatches (a ++ b) = reportBatches a ++ reportBatches b :=
  evJoin_append _ a b

@[simp] theorem reportLens_append (a b : List Ev) :
    reportLens (a ++ b) = reportLens a ++ reportLens b := by
  simp [reportLens]

@[simp] theorem reportedEntries_append (a b : List Ev) :
    reportedEntries (a ++ b) = reportedEntries a ++ reportedEntries b := by
  simp [reportedEntries]

@[simp] theorem batchTriples_append (f : Nat → PageInfo)
    (a b : List (Nat × Nat)) :
    batchTriples f (a ++ b) = batchTriples f a ++ batchTriples f b := by
  simp [batchTriples]


@[simp] theorem batchTriples_nil (f : Nat → PageInfo) :
    batchTriples f [] = [] := by
  simp [batchTriples]

theorem perm_shuffle {α : Type} {A B C R D : List α}
    (h : List.Perm A (B ++ C)) :
    List.Perm (A ++ (R ++ D)) ((B ++ R) ++ (C ++ D)) := by
  have h1 : List.Perm (A ++ (R ++ D)) ((B ++ C) ++ (R ++ D)) :=
    h.append_right _
  have e1 : (B ++ C) ++ (R ++ D) = B ++ ((C ++ R) ++ D) := by
    simp [List.append_assoc]
  have h3 : List.Perm (B ++ ((C ++ R) ++ D)) (B ++ ((R ++ C) ++ D)) :=
    List.Perm.append_left B (List.perm_append_comm.append_right _)
  have h4 : List.Perm (B ++ ((R ++ C) ++ D)) ((B ++ R) ++ (C ++ D)) := by
    have e2 : B ++ ((R ++ C) ++ D) = (B ++ R) ++ (C ++ D) := by
      simp [List.append_assoc]
    rw [e2]
  rw [e1] at h1
  exact (h1.trans h3).trans h4

/-- Inductive invariant of the `for_each_set_bit` loop of
`scan_zone_bitmap`: the `count` variable tracks the staged batch, it stays
below `max_pages` between iterations, every batch reported so far was full,
isolations so far are exactly the releases so far plus the staged batch
(same block, order and migratetype), and the appends so far are exactly the
reported entries plus the staged batch. -/
structure AInv (cfg : RepCfg) (st : ASt) : Prop where
  count_eq : st.count = st.batch.length
  count_lt : st.count < cfg.max_pages
  lens : ∀ l, l ∈ reportLens st.trace → l = cfg.max_pages
  perm : List.Perm (isolList st.trace)
    (relList st.trace ++ batchTriples cfg.alloc st.batch)
  appacc : appendList st.trace = reportedEntries st.trace ++ st.batch

theorem AInv_step (cfg : RepCfg) (hmax : 1 ≤ cfg.max_pages) (i : Nat)
    {st : ASt} (h : AInv cfg st) : AInv cfg (scanBitStep cfg i st) := by
  by_cases ho : (cfg.alloc (pfnOfBitR cfg i)).online = false
  · have hstep : scanBitStep cfg i st =
        { count := st.count, batch := st.batch,
          free_pages := st.free_pages - 1,
          trace := st.trace ++ [.clear i] } := by
      simp [scanBitStep, ho]
    rw [hstep]
    refine ⟨ h.count_eq, h.count_lt, ?_, ?_, ?_ ⟩
    · intro l hl
      simp only [reportLens_append] at hl
      rcases List.mem_append.mp hl with h1 | h1
      · exact h.lens l h1
      · simp [reportLens, reportBatches, evJoin, repOf] at h1
    · have e1 : isolList [Ev.clear i] = [] := by
        simp [isolList, evJoin, isolOf]
      have e2 : relList [Ev.clear i] = [] := by
        simp [relList, evJoin, relOf]
      simp only [isolList_append, relList_append, e1, e2]
      simpa using h.perm
    · have e1 : appendList [Ev.clear i] = [] := by
        simp [appendList, evJoin, appOf]
      have e2 : reportedEntries [Ev.clear i] = [] := by
        simp [reportedEntries, reportBatches, evJoin, repOf]
      simp only [appendList_append, reportedEntries_append, e1, e2]
      simpa using h.appacc
  · obtain ⟨ dtr, db, hst, heq, happ, hrep, hlen, hdb ⟩ :=
      scanBitOnline_delta cfg i st
    have hc : (scanBitOnline cfg i st).count = st.count + db.length := by
      rw [hst]
    have hb : (scanBitOnline cfg i st).batch = st.batch ++ db := by
      rw [hst]
    have htr : (scanBitOnline cfg i st).trace = st.trace ++ dtr := by
      rw [hst]
    have count_eq1 : (scanBitOnline cfg i st).count =
        (scanBitOnline cfg i st).batch.length := by
      rw [hc, hb, h.count_eq]
      simp
    have lens1 : ∀ l, l ∈ reportLens (scanBitOnline cfg i st).trace ->
        l = cfg.max_pages := by
      rw [htr]
      intro l hl
      simp only [reportLens_append] at hl
      rcases List.mem_append.mp hl with h1 | h1
      · exact h.lens l h1
      · rw [reportLens, hrep] at h1
        simp at h1
    have perm1 : List.Perm (isolList (scanBitOnline cfg i st).trace)
        (relList (scanBitOnline cfg i st).trace ++
          batchTriples cfg.alloc (scanBitOnline cfg i st).batch) := by
      rw [htr, hb]
      simp only [isolList_append, relList_append, batchTriples_append]
      rw [heq]
      exact perm_shuffle h.perm
    have appacc1 : appendList (scanBitOnline cfg i st).trace =
        reportedEntries (scanBitOnline cfg i st).trace ++
          (scanBitOnline cfg i st).batch := by
      rw [htr, hb]
      simp only [appendList_append, reportedEntries_append, happ]
      rw [h.appacc]
      have e2 : reportedEntries dtr = [] := by
        simp [reportedEntries, hrep]
      rw [e2]
      simp
    have hcub : (scanBitOnline cfg i st).count ≤ cfg.max_pages := by
      have := h.count_lt
      omega
    by_cases hf : cfg.max_pages ≤ (scanBitOnline cfg i st).count
    · have hstep : scanBitStep cfg i st =
          { count := 0, batch := [],
            free_pages := (scanBitOnline cfg i st).free_pages,
            trace := (scanBitOnline cfg i st).trace ++
              [.report (scanBitOnline cfg i st).batch] ++
              return_isolated_page cfg (scanBitOnline cfg i st).batch } := by
        simp [scanBitStep, ho, hf]
      have hcmax : (scanBitOnline cfg i st).count = cfg.max_pages := by
        omega
      rw [hstep]
      refine ⟨ by simp, by show 0 < cfg.max_pages; omega, ?_, ?_, ?_ ⟩
      · intro l hl
        simp only [reportLens_append] at hl
        rcases List.mem_append.mp hl with h1 | h1
        · rcases List.mem_append.mp h1 with h2 | h2
          · exact lens1 l h2
          · have e1 : l = (scanBitOnline cfg i st).batch.length := by
              simpa [reportLens, reportBatches, evJoin, repOf] using h2
            rw [e1, ← count_eq1, hcmax]
        · rw [reportLens, reportBatches_return_isolated_page] at h1
          simp at h1
      · have e1 : isolList [Ev.report (scanBitOnline cfg i st).batch]
            = [] := by simp [isolList, evJoin, isolOf]
        have e2 : relList [Ev.report (scanBitOnline cfg i st).batch]
            = [] := by simp [relList, evJoin, relOf]
        simp only [isolList_append, relList_append, e1, e2,
          isolList_return_isolated_page, relList_return_isolated_page,
          batchTriples_nil]
        simpa using perm1
      · have e1 : appendList [Ev.report (scanBitOnline cfg i st).batch]
            = [] := by simp [appendList, evJoin, appOf]
        have e2 : reportedEntries
            [Ev.report (scanBitOnline cfg i st).batch] =
            (scanBitOnline cfg i st).batch := by
          simp [reportedEntries, reportBatches, evJoin, repOf]
        have e3 : reportedEntries
            (return_isolated_page cfg (scanBitOnline cfg i st).batch) =
            [] := by
          simp [reportedEntries, reportBatches_return_isolated_page]
        simp only [appendList_append, reportedEntries_append, e1, e2, e3,
          appendList_return_isolated_page]
        simpa using appacc1
    · have hstep : scanBitStep cfg i st = scanBitOnline cfg i st := by
        simp [scanBitStep, ho, hf]
      rw [hstep]
      exact ⟨ count_eq1, by omega, lens1, perm1, appacc1 ⟩

theorem AInv_foldl (cfg : RepCfg) (hmax : 1 ≤ cfg.max_pages)
    (l : List Nat) {st : ASt} (h : AInv cfg st) :
    AInv cfg (l.foldl (fun st i => scanBitStep cfg i st) st) := by
  induction l generalizing st with
  | nil => exact h
  | cons i tl ih => exact ih (AInv_step cfg hmax i h)

theorem AInv_start (cfg : RepCfg) (hmax : 1 ≤ cfg.max_pages) (fp0 : Int) :
    AInv cfg ⟨0, [], fp0, []⟩ := by
  refine ⟨rfl, hmax, ?_, ?_, ?_⟩ <;>
    simp [reportLens, reportBatches, isolList, relList, appendList,
      reportedEntries, evJoin, batchTriples]

/-- Combined facts about a completed `scan_zone_bitmap` run: every
isolation is matched by a release of the same block, order and migratetype
(and conversely); the appended entries are exactly the reported entries;
every reported batch length lies in `[1, max_pages]`; and every reported
batch except possibly the last has length exactly `max_pages`. -/
theorem scanA_facts (cfg : RepCfg) (hmax : 1 ≤ cfg.max_pages)
    (bm : List Bool) (fp0 : Int) :
    List.Perm (isolList (scan_zone_bitmap cfg bm fp0).trace)
      (relList (scan_zone_bitmap cfg bm fp0).trace) ∧
    appendList (scan_zone_bitmap cfg bm fp0).trace =
      reportedEntries (scan_zone_bitmap cfg bm fp0).trace ∧
    (∀ l ∈ reportLens (scan_zone_bitmap cfg bm fp0).trace,
      1 ≤ l ∧ l ≤ cfg.max_pages) ∧
    (∀ l ∈ (reportLens (scan_zone_bitmap cfg bm fp0).trace).dropLast,
      l = cfg.max_pages) := by
  have hF : AInv cfg ((setIndices bm).foldl
      (fun st i => scanBitStep cfg i st) ⟨0, [], fp0, []⟩) :=
    AInv_foldl cfg hmax _ (AInv_start cfg hmax fp0)
  by_cases hc : ((setIndices bm).foldl
      (fun st i => scanBitStep cfg i st) ⟨0, [], fp0, []⟩).count ≠ 0
  · have hscan : scan_zone_bitmap cfg bm fp0 =
        { ((setIndices bm).foldl (fun st i => scanBitStep cfg i st)
            ⟨0, [], fp0, []⟩) with
          count := 0, batch := [],
          trace := ((setIndices bm).foldl (fun st i => scanBitStep cfg i st)
              ⟨0, [], fp0, []⟩).trace ++
            [.report ((setIndices bm).foldl
                (fun st i => scanBitStep cfg i st) ⟨0, [], fp0, []⟩).batch]
            ++ return_isolated_page cfg ((setIndices bm).foldl
                (fun st i => scanBitStep cfg i st) ⟨0, [], fp0, []⟩).batch
        } := by
      simp only [scan_zone_bitmap, if_pos hc]
    rw [hscan]
    set F := (setIndices bm).foldl (fun st i => scanBitStep cfg i st)
      ⟨0, [], fp0, []⟩ with hFdef
    have e1 : isolList [Ev.report F.batch] = [] := by
      simp [isolList, evJoin, isolOf]
    have e2 : relList [Ev.report F.batch] = [] := by
      simp [relList, evJoin, relOf]
    have e3 : appendList [Ev.report F.batch] = [] := by
      simp [appendList, evJoin, appOf]
    have e4 : reportedEntries [Ev.report F.batch] = F.batch := by
      simp [reportedEntries, reportBatches, evJoin, repOf]
    have e5 : reportedEntries (return_isolated_page cfg F.batch) = [] := by
      simp [reportedEntries, reportBatches_return_isolated_page]
    have e6 : reportLens [Ev.report F.batch] = [F.batch.length] := by
      simp [reportLens, reportBatches, evJoin, repOf]
    have e7 : reportLens (return_isolated_page cfg F.batch) = [] := by
      simp [reportLens, reportBatches_return_isolated_page]
    refine ⟨?_, ?_, ?_, ?_⟩
    · simp only [isolList_append, relList_append, e1, e2,
        isolList_return_isolated_page, relList_return_isolated_page]
      simpa using hF.perm
    · simp only [appendList_append, reportedEntries_append, e3, e4, e5,
        appendList_return_isolated_page]
      simpa using hF.appacc
    · intro l hl
      simp only [reportLens_append, e6, e7] at hl
      rcases List.mem_append.mp hl with h1 | h1
      · rcases List.mem_append.mp h1 with h2 | h2
        · have := hF.lens l h2
          omega
        · have hb : l = F.batch.length := by simpa using h2
          have hcnt : F.count = F.batch.length := hF.count_eq
          have hlt : F.count < cfg.max_pages := hF.count_lt
          omega
      · simp at h1
    · intro l hl
      simp only [reportLens_append, e6, e7, List.append_nil] at hl
      rw [List.dropLast_concat] at hl
      exact hF.lens l hl
  · have hscan : scan_zone_bitmap cfg bm fp0 =
        (setIndices bm).foldl (fun st i => scanBitStep cfg i st)
          ⟨0, [], fp0, []⟩ := by
      simp only [scan_zone_bitmap, if_neg hc]
    rw [hscan]
    have hc0 : ((setIndices bm).foldl (fun st i => scanBitStep cfg i st)
        ⟨0, [], fp0, []⟩).count = 0 := by simpa using hc
    have hbe : ((setIndices bm).foldl (fun st i => scanBitStep cfg i st)
        ⟨0, [], fp0, []⟩).batch = [] := by
      refine List.length_eq_zero.mp ?_
      rw [← hF.count_eq, hc0]
    refine ⟨?_, ?_, ?_, ?_⟩
    · have := hF.perm
      rw [hbe] at this
      simpa using this
    · have := hF.appacc
      rw [hbe] at this
      simpa using this
    · intro l hl
      have := hF.lens l hl
      omega
    · exact fun l hl => hF.lens l ((List.dropLast_sublist _).subset hl)

theorem scanStep_appendDelta (cfg : RepCfg) (i : Nat) (st : ASt) :
    ∃ d, appendList (scanBitStep cfg i st).trace =
        appendList st.trace ++ d ∧
      (d = [] ∨
        d = [((pfnOfBitR cfg i), (cfg.alloc (pfnOfBitR cfg i)).order)]) := by
  by_cases ho : (cfg.alloc (pfnOfBitR cfg i)).online = false
  · refine ⟨[], ?_, Or.inl rfl⟩
    simp [scanBitStep, ho, appendList, evJoin_append, evJoin, appOf]
  · obtain ⟨dtr, db, hst, heq, happ, hrep, hlen, hdb⟩ :=
      scanBitOnline_delta cfg i st
    have htr : (scanBitOnline cfg i st).trace = st.trace ++ dtr := by
      rw [hst]
    by_cases hf : cfg.max_pages ≤ (scanBitOnline cfg i st).count
    · refine ⟨db, ?_, hdb⟩
      have hstep : scanBitStep cfg i st =
          { count := 0, batch := [],
            free_pages := (scanBitOnline cfg i st).free_pages,
            trace := (scanBitOnline cfg i st).trace ++
              [.report (scanBitOnline cfg i st).batch] ++
              return_isolated_page cfg (scanBitOnline cfg i st).batch } := by
        simp [scanBitStep, ho, hf]
      rw [hstep]
      have e1 : appendList [Ev.report (scanBitOnline cfg i st).batch]
          = [] := by simp [appendList, evJoin, appOf]
      show appendList _ = _
      simp only [appendList_append, e1, appendList_return_isolated_page,
        htr, happ, List.append_nil]
    · refine ⟨db, ?_, hdb⟩
      have hstep : scanBitStep cfg i st = scanBitOnline cfg i st := by
        simp [scanBitStep, ho, hf]
      rw [hstep, htr]
      simp only [appendList_append, happ]

theorem scanFold_appendPfns (cfg : RepCfg) (l : List Nat) (st : ASt) :
    ∃ d, (appendList ((l.foldl (fun st i => scanBitStep cfg i st)
          st)).trace).map Prod.fst =
        (appendList st.trace).map Prod.fst ++ d ∧
      List.Sublist d (l.map (fun i => pfnOfBitR cfg i)) := by
  induction l generalizing st with
  | nil => exact ⟨[], by simp, by simp⟩
  | cons i tl ih =>
    obtain ⟨d0, hd0, hc0⟩ := scanStep_appendDelta cfg i st
    obtain ⟨d1, hd1, hs1⟩ := ih (scanBitStep cfg i st)
    refine ⟨d0.map Prod.fst ++ d1, ?_, ?_⟩
    · simp only [List.foldl_cons]
      rw [hd1, hd0]
      simp [List.append_assoc]
    · rcases hc0 with rfl | rfl
      · simpa using List.Sublist.cons _ hs1
      · simpa using List.Sublist.cons₂ (pfnOfBitR cfg i) hs1

theorem scanA_appendPfns_sublist (cfg : RepCfg) (bm : List Bool)
    (fp0 : Int) :
    List.Sublist
      ((appendList (scan_zone_bitmap cfg bm fp0).trace).map Prod.fst)
      ((setIndices bm).map (fun i => pfnOfBitR cfg i)) := by
  obtain ⟨d, hd, hs⟩ := scanFold_appendPfns cfg (setIndices bm)
    ⟨0, [], fp0, []⟩
  have h0 : appendList (⟨0, [], fp0, []⟩ : ASt).trace = [] := rfl
  rw [h0] at hd
  simp only [List.map_nil, List.nil_append] at hd
  by_cases hc : ((setIndices bm).foldl (fun st i => scanBitStep cfg i st)
      ⟨0, [], fp0, []⟩).count ≠ 0
  · have hscan : (scan_zone_bitmap cfg bm fp0).trace =
        ((setIndices bm).foldl (fun st i => scanBitStep cfg i st)
            ⟨0, [], fp0, []⟩).trace ++
          [.report ((setIndices bm).foldl
              (fun st i => scanBitStep cfg i st) ⟨0, [], fp0, []⟩).batch]
          ++ return_isolated_page cfg ((setIndices bm).foldl
              (fun st i => scanBitStep cfg i st) ⟨0, [], fp0, []⟩).batch := by
      simp only [scan_zone_bitmap, if_pos hc]
    rw [hscan]
    have e1 : appendList [Ev.report ((setIndices bm).foldl
        (fun st i => scanBitStep cfg i st) ⟨0, [], fp0, []⟩).batch]
        = [] := by simp [appendList, evJoin, appOf]
    simp only [appendList_append, e1, appendList_return_isolated_page,
      List.append_nil, hd]
    exact hs
  · have hscan : (scan_zone_bitmap cfg bm fp0).trace =
        ((setIndices bm).foldl (fun st i => scanBitStep cfg i st)
          ⟨0, [], fp0, []⟩).trace := by
      simp only [scan_zone_bitmap, if_neg hc]
    rw [hscan, hd]
    exact hs

theorem pfnOfBitR_lt (cfg : RepCfg) {i j : Nat} (h : i < j) :
    pfnOfBitR cfg i < pfnOfBitR cfg j := by
  simp only [pfnOfBitR, Nat.shiftLeft_eq, PAGE_REPORTING_MIN_ORDER]
  have h2 : (2 : Nat) ^ 9 = 512 := by norm_num
  rw [h2]
  omega

theorem setIndices_pairwise (bm : List Bool) :
    (setIndices bm).Pairwise (· < ·) := by
  exact List.Pairwise.filter _ (List.pairwise_lt_range _)

/-- The pfns of the entries handed to the report callback by one
`scan_zone_bitmap` run are strictly increasing: no block is reported twice
within one scan. -/
theorem scanA_reported_pfns_pairwise (cfg : RepCfg)
    (hmax : 1 ≤ cfg.max_pages) (bm : List Bool) (fp0 : Int) :
    ((reportedEntries (scan_zone_bitmap cfg bm fp0).trace).map
      Prod.fst).Pairwise (· < ·) := by
  have h1 := (scanA_facts cfg hmax bm fp0).2.1
  have h2 := scanA_appendPfns_sublist cfg bm fp0
  rw [h1] at h2
  have h3 : (((setIndices bm).map (fun i => pfnOfBitR cfg i)).Pairwise
      (· < ·)) := by
    rw [List.pairwise_map]
    exact (setIndices_pairwise bm).imp (fun hij => pfnOfBitR_lt cfg hij)
  exact h3.sublist h2

/-! ### Invariants of `scan_zone_free_area` -/

theorem reportBatches_release_isolated_pages (cfg : HCfg)
    (b : List (Nat × Nat)) :
    reportBatches (release_isolated_pages cfg b) = [] := by
  induction b with
  | nil => simp [release_isolated_pages, reportBatches, evJoin]
  | cons e tl ih =>
    simp only [release_isolated_pages, List.map, reportBatches, evJoin,
      repOf] at *
    simpa using ih

theorem reportBatches_freeAreaLockedEvents (cfg : HCfg) (i : Nat) :
    reportBatches (freeAreaLockedEvents cfg i) = [] := by
  by_cases hc : (cfg.alloc (pfnOfBitH cfg i)).buddy = true ∧
      PAGE_HINTING_MIN_ORDER ≤ (cfg.alloc (pfnOfBitH cfg i)).order ∧
      cfg.isolateOk (pfnOfBitH cfg i) = true
  · simp [freeAreaLockedEvents, hc, reportBatches, evJoin, repOf]
  · simp [freeAreaLockedEvents, hc, reportBatches, evJoin, repOf]

/-- Inductive invariant of the `for_each_set_bit` loop of
`scan_zone_free_area`: `isolated_cnt` tracks the staged batch, stays below
`max_pages` between iterations, and every batch reported so far was full. -/
structure BInv (cfg : HCfg) (st : BSt) : Prop where
  cnt_eq : st.isolated_cnt = st.batch.length
  cnt_lt : st.isolated_cnt < cfg.max_pages
  lens : ∀ l ∈ reportLens st.trace, l = cfg.max_pages

theorem BInv_step (cfg : HCfg) (hmax : 1 ≤ cfg.max_pages) (i : Nat)
    {st : BSt} (h : BInv cfg st) : BInv cfg (scanFreeAreaStep cfg i st) := by
  have hle : reportLens (freeAreaLockedEvents cfg i) = [] := by
    rw [reportLens, reportBatches_freeAreaLockedEvents]
    rfl
  have hap : ∀ pfn o, reportLens [Ev.append pfn o] = [] := by
    intro pfn o
    simp [reportLens, reportBatches, evJoin, repOf]
  have hrp : ∀ b : List (Nat × Nat),
      reportLens [Ev.report b] = [b.length] := by
    intro b
    simp [reportLens, reportBatches, evJoin, repOf]
  have hrl : ∀ b, reportLens (release_isolated_pages cfg b) = [] := by
    intro b
    rw [reportLens, reportBatches_release_isolated_pages]
    rfl
  by_cases ho : (cfg.alloc (pfnOfBitH cfg i)).online = false
  · have hstep : scanFreeAreaStep cfg i st = st := by
      simp [scanFreeAreaStep, ho]
    rw [hstep]
    exact h
  · by_cases hr : (if (cfg.alloc (pfnOfBitH cfg i)).buddy = true ∧
        PAGE_HINTING_MIN_ORDER ≤ (cfg.alloc (pfnOfBitH cfg i)).order
        then cfg.isolateOk (pfnOfBitH cfg i) else st.ret) = true
    · by_cases hfull : st.isolated_cnt + 1 = cfg.max_pages
      · simp only [scanFreeAreaStep, ho, hr, hfull, Bool.true_eq_false,
          Bool.false_eq_true, if_false, if_true, ite_true, ite_false]
        refine ⟨by simp, by show 0 < cfg.max_pages; omega, ?_⟩
        intro l hl
        simp only [reportLens_append, hle, hap, hrp, hrl, List.append_nil,
          List.nil_append] at hl
        rcases List.mem_append.mp hl with h1 | h1
        · exact h.lens l h1
        · have e1 : l = st.batch.length + 1 := by simpa using h1
          have := h.cnt_eq
          omega
      · simp only [scanFreeAreaStep, ho, hr, hfull, Bool.true_eq_false,
          Bool.false_eq_true, if_false, if_true, ite_true, ite_false]
        refine ⟨?_, ?_, ?_⟩
        · show st.isolated_cnt + 1 = _
          simp [h.cnt_eq]
        · show st.isolated_cnt + 1 < cfg.max_pages
          have := h.cnt_lt
          omega
        · intro l hl
          simp only [reportLens_append, hle, hap, List.append_nil] at hl
          exact h.lens l hl
    · simp only [scanFreeAreaStep, ho, hr, Bool.true_eq_false,
        Bool.false_eq_true, if_false, if_true, ite_true, ite_false]
      refine ⟨h.cnt_eq, h.cnt_lt, ?_⟩
      intro l hl
      simp only [reportLens_append, hle, List.append_nil] at hl
      exact h.lens l hl

theorem BInv_foldl (cfg : HCfg) (hmax : 1 ≤ cfg.max_pages)
    (l : List Nat) {st : BSt} (h : BInv cfg st) :
    BInv cfg (l.foldl (fun st i => scanFreeAreaStep cfg i st) st) := by
  induction l generalizing st with
  | nil => exact h
  | cons i tl ih => exact ih (BInv_step cfg hmax i h)

/-- Batch-length facts about a completed `scan_zone_free_area` run, for any
initial values of the uninitialized locals: every reported batch length lies
in `[1, max_pages]` and every reported batch except possibly the last has
length exactly `max_pages`. -/
theorem scanB_lens (cfg : HCfg) (hmax : 1 ≤ cfg.max_pages) (bm : List Bool)
    (ret0 : Bool) (order0 : Nat) :
    (∀ l ∈ reportLens (scan_zone_free_area cfg bm ret0 order0).trace,
      1 ≤ l ∧ l ≤ cfg.max_pages) ∧
    (∀ l ∈ (reportLens (scan_zone_free_area cfg bm ret0 order0).trace).dropLast,
      l = cfg.max_pages) := by
  have hF : BInv cfg ((setIndices bm).foldl
      (fun st i => scanFreeAreaStep cfg i st) ⟨ret0, order0, 0, [], []⟩) :=
    BInv_foldl cfg hmax _ ⟨rfl, hmax, by simp [reportLens, reportBatches, evJoin]⟩
  by_cases hc : ((setIndices bm).foldl
      (fun st i => scanFreeAreaStep cfg i st)
      ⟨ret0, order0, 0, [], []⟩).isolated_cnt ≠ 0
  · have hscan : (scan_zone_free_area cfg bm ret0 order0).trace =
        ((setIndices bm).foldl (fun st i => scanFreeAreaStep cfg i st)
            ⟨ret0, order0, 0, [], []⟩).trace ++
          [.report ((setIndices bm).foldl
              (fun st i => scanFreeAreaStep cfg i st)
              ⟨ret0, order0, 0, [], []⟩).batch]
          ++ release_isolated_pages cfg ((setIndices bm).foldl
              (fun st i => scanFreeAreaStep cfg i st)
              ⟨ret0, order0, 0, [], []⟩).batch := by
      simp only [scan_zone_free_area, if_pos hc]
    rw [hscan]
    set F := (setIndices bm).foldl (fun st i => scanFreeAreaStep cfg i st)
      ⟨ret0, order0, 0, [], []⟩ with hFdef
    have e6 : reportLens [Ev.report F.batch] = [F.batch.length] := by
      simp [reportLens, reportBatches, evJoin, repOf]
    have e7 : reportLens (release_isolated_pages cfg F.batch) = [] := by
      rw [reportLens, reportBatches_release_isolated_pages]
      simp
    constructor
    · intro l hl
      simp only [reportLens_append, e6, e7] at hl
      rcases List.mem_append.mp hl with h1 | h1
      · rcases List.mem_append.mp h1 with h2 | h2
        · have := hF.lens l h2
          omega
        · have hb : l = F.batch.length := by simpa using h2
          have hcnt := hF.cnt_eq
          have hlt := hF.cnt_lt
          omega
      · simp at h1
    · intro l hl
      simp only [reportLens_append, e6, e7, List.append_nil] at hl
      rw [List.dropLast_concat] at hl
      exact hF.lens l hl
  · have hscan : (scan_zone_free_area cfg bm ret0 order0).trace =
        ((setIndices bm).foldl (fun st i => scanFreeAreaStep cfg i st)
          ⟨ret0, order0, 0, [], []⟩).trace := by
      simp only [scan_zone_free_area, if_neg hc]
    rw [hscan]
    constructor
    · intro l hl
      have := hF.lens l hl
      omega
    · exact fun l hl => hF.lens l ((List.dropLast_sublist _).subset hl)

theorem isolList_release_isolated_pages (cfg : HCfg)
    (b : List (Nat × Nat)) :
    isolList (release_isolated_pages cfg b) = [] := by
  induction b with
  | nil => simp [release_isolated_pages, isolList, evJoin]
  | cons e tl ih =>
    simp only [release_isolated_pages, List.map, isolList, evJoin, isolOf]
      at *
    simpa using ih

theorem relList_release_isolated_pages (cfg : HCfg)
    (b : List (Nat × Nat)) :
    relList (release_isolated_pages cfg b) = batchTriples cfg.alloc b := by
  induction b with
  | nil => simp [release_isolated_pages, relList, evJoin, batchTriples]
  | cons e tl ih =>
    simp only [release_isolated_pages, List.map, relList, evJoin, relOf,
      batchTriples] at *
    simp [ih]

theorem isolList_cons (e : Ev) (tr : List Ev) :
    isolList (e :: tr) = isolOf e ++ isolList tr := rfl

theorem relList_cons (e : Ev) (tr : List Ev) :
    relList (e :: tr) = relOf e ++ relList tr := rfl

theorem relList_freeAreaLockedEvents (cfg : HCfg) (i : Nat) :
    relList (freeAreaLockedEvents cfg i) = [] := by
  by_cases hc : (cfg.alloc (pfnOfBitH cfg i)).buddy = true ∧
      PAGE_HINTING_MIN_ORDER ≤ (cfg.alloc (pfnOfBitH cfg i)).order ∧
      cfg.isolateOk (pfnOfBitH cfg i) = true
  · simp [freeAreaLockedEvents, hc, relList, evJoin, relOf]
  · simp [freeAreaLockedEvents, hc, relList, evJoin, relOf]

/-- Inductive invariant for the runs of `scan_zone_free_area` whose
uninitialized local `ret` happens to enter the loop holding zero: between
iterations `ret` is again zero (the loop body ends with `ret = 0;`), the
staged batch matches `isolated_cnt`, and the isolations recorded so far are
a permutation of the releases recorded so far plus the still-staged batch,
each with the block start pfn, its order and its current migratetype. -/
structure BPInv (cfg : HCfg) (st : BSt) : Prop where
  ret_eq : st.ret = false
  cnt_eq : st.isolated_cnt = st.batch.length
  perm : List.Perm (isolList st.trace)
    (relList st.trace ++ batchTriples cfg.alloc st.batch)

theorem BPInv_step (cfg : HCfg) (i : Nat) {st : BSt} (h : BPInv cfg st) :
    BPInv cfg (scanFreeAreaStep cfg i st) := by
  have eia : ∀ pfn o, isolList [Ev.append pfn o] = [] := by
    intro pfn o
    simp [isolList, evJoin, isolOf]
  have era : ∀ pfn o, relList [Ev.append pfn o] = [] := by
    intro pfn o
    simp [relList, evJoin, relOf]
  have eir : ∀ b : List (Nat × Nat), isolList [Ev.report b] = [] := by
    intro b
    simp [isolList, evJoin, isolOf]
  have err : ∀ b : List (Nat × Nat), relList [Ev.report b] = [] := by
    intro b
    simp [relList, evJoin, relOf]
  by_cases ho : (cfg.alloc (pfnOfBitH cfg i)).online = false
  · have hstep : scanFreeAreaStep cfg i st = st := by
      simp [scanFreeAreaStep, ho]
    rw [hstep]
    exact h
  · by_cases hr : (if (cfg.alloc (pfnOfBitH cfg i)).buddy = true ∧
        PAGE_HINTING_MIN_ORDER ≤ (cfg.alloc (pfnOfBitH cfg i)).order
        then cfg.isolateOk (pfnOfBitH cfg i) else st.ret) = true
    · have hv : (cfg.alloc (pfnOfBitH cfg i)).buddy = true ∧
          PAGE_HINTING_MIN_ORDER ≤ (cfg.alloc (pfnOfBitH cfg i)).order := by
        by_contra hnv
        rw [if_neg hnv, h.ret_eq] at hr
        exact absurd hr (by decide)
      obtain ⟨hv1, hv2⟩ := hv
      have hio : cfg.isolateOk (pfnOfBitH cfg i) = true := by
        rw [if_pos ⟨hv1, hv2⟩] at hr
        exact hr
      have hc3 : (cfg.alloc (pfnOfBitH cfg i)).buddy = true ∧
          PAGE_HINTING_MIN_ORDER ≤ (cfg.alloc (pfnOfBitH cfg i)).order ∧
          cfg.isolateOk (pfnOfBitH cfg i) = true := ⟨hv1, hv2, hio⟩
      have hile : isolList (freeAreaLockedEvents cfg i) =
          [((pfnOfBitH cfg i), (cfg.alloc (pfnOfBitH cfg i)).order,
            (cfg.alloc (pfnOfBitH cfg i)).mt)] := by
        simp [freeAreaLockedEvents, hc3, isolList, evJoin, isolOf]
      have h1 := h.perm.append_right
        [((pfnOfBitH cfg i), (cfg.alloc (pfnOfBitH cfg i)).order,
          (cfg.alloc (pfnOfBitH cfg i)).mt)]
      by_cases hfull : st.isolated_cnt + 1 = cfg.max_pages
      · have hstep : scanFreeAreaStep cfg i st =
            { ret := false, order := (cfg.alloc (pfnOfBitH cfg i)).order,
              isolated_cnt := 0, batch := [],
              trace := st.trace ++ freeAreaLockedEvents cfg i ++
                [Ev.append (pfnOfBitH cfg i)
                  (cfg.alloc (pfnOfBitH cfg i)).order] ++
                [Ev.report (st.batch ++ [((pfnOfBitH cfg i),
                  (cfg.alloc (pfnOfBitH cfg i)).order)])] ++
                release_isolated_pages cfg (st.batch ++ [((pfnOfBitH cfg i),
                  (cfg.alloc (pfnOfBitH cfg i)).order)]) } := by
          simp [scanFreeAreaStep, ho, hv1, hv2, hio, hfull]
        rw [hstep]
        refine ⟨rfl, rfl, ?_⟩
        show List.Perm
          (isolList (st.trace ++ freeAreaLockedEvents cfg i ++
            [Ev.append (pfnOfBitH cfg i)
              (cfg.alloc (pfnOfBitH cfg i)).order] ++
            [Ev.report (st.batch ++ [((pfnOfBitH cfg i),
              (cfg.alloc (pfnOfBitH cfg i)).order)])] ++
            release_isolated_pages cfg (st.batch ++ [((pfnOfBitH cfg i),
              (cfg.alloc (pfnOfBitH cfg i)).order)])))
          (relList (st.trace ++ freeAreaLockedEvents cfg i ++
            [Ev.append (pfnOfBitH cfg i)
              (cfg.alloc (pfnOfBitH cfg i)).order] ++
            [Ev.report (st.batch ++ [((pfnOfBitH cfg i),
              (cfg.alloc (pfnOfBitH cfg i)).order)])] ++
            release_isolated_pages cfg (st.batch ++ [((pfnOfBitH cfg i),
              (cfg.alloc (pfnOfBitH cfg i)).order)])) ++
            batchTriples cfg.alloc [])
        simpa [hile, relList_freeAreaLockedEvents, isolList_cons,
          relList_cons, isolOf, relOf, isolList_release_isolated_pages,
          relList_release_isolated_pages, batchTriples] using h1
      · have hstep : scanFreeAreaStep cfg i st =
            { ret := false, order := (cfg.alloc (pfnOfBitH cfg i)).order,
              isolated_cnt := st.isolated_cnt + 1,
              batch := st.batch ++ [((pfnOfBitH cfg i),
                (cfg.alloc (pfnOfBitH cfg i)).order)],
              trace := st.trace ++ freeAreaLockedEvents cfg i ++
                [Ev.append (pfnOfBitH cfg i)
                  (cfg.alloc (pfnOfBitH cfg i)).order] } := by
          simp [scanFreeAreaStep, ho, hv1, hv2, hio, hfull]
        rw [hstep]
        refine ⟨rfl, ?_, ?_⟩
        · show st.isolated_cnt + 1 = (st.batch ++ [((pfnOfBitH cfg i),
            (cfg.alloc (pfnOfBitH cfg i)).order)]).length
          simp [h.cnt_eq]
        · show List.Perm
            (isolList (st.trace ++ freeAreaLockedEvents cfg i ++
              [Ev.append (pfnOfBitH cfg i)
                (cfg.alloc (pfnOfBitH cfg i)).order]))
            (relList (st.trace ++ freeAreaLockedEvents cfg i ++
              [Ev.append (pfnOfBitH cfg i)
                (cfg.alloc (pfnOfBitH cfg i)).order]) ++
              batchTriples cfg.alloc (st.batch ++ [((pfnOfBitH cfg i),
                (cfg.alloc (pfnOfBitH cfg i)).order)]))
          simpa [hile, relList_freeAreaLockedEvents, eia, era,
            batchTriples] using h1
    · have hniso : ¬((cfg.alloc (pfnOfBitH cfg i)).buddy = true ∧
          PAGE_HINTING_MIN_ORDER ≤ (cfg.alloc (pfnOfBitH cfg i)).order ∧
          cfg.isolateOk (pfnOfBitH cfg i) = true) := by
        intro h3
        apply hr
        rw [if_pos ⟨h3.1, h3.2.1⟩]
        exact h3.2.2
      have hile0 : isolList (freeAreaLockedEvents cfg i) = [] := by
        simp [freeAreaLockedEvents, hniso, isolList, evJoin, isolOf]
      by_cases hv : (cfg.alloc (pfnOfBitH cfg i)).buddy = true ∧
          PAGE_HINTING_MIN_ORDER ≤ (cfg.alloc (pfnOfBitH cfg i)).order
      · have hio : cfg.isolateOk (pfnOfBitH cfg i) = false := by
          rw [if_pos hv] at hr
          exact Bool.eq_false_iff.mpr hr
        have hstep : scanFreeAreaStep cfg i st =
            { ret := false, order := (cfg.alloc (pfnOfBitH cfg i)).order,
              isolated_cnt := st.isolated_cnt, batch := st.batch,
              trace := st.trace ++ freeAreaLockedEvents cfg i } := by
          simp [scanFreeAreaStep, ho, hv.1, hv.2, hio]
        rw [hstep]
        refine ⟨rfl, h.cnt_eq, ?_⟩
        show List.Perm
          (isolList (st.trace ++ freeAreaLockedEvents cfg i))
          (relList (st.trace ++ freeAreaLockedEvents cfg i) ++
            batchTriples cfg.alloc st.batch)
        simpa [hile0, relList_freeAreaLockedEvents] using h.perm
      · have hstep : scanFreeAreaStep cfg i st =
            { ret := false, order := st.order,
              isolated_cnt := st.isolated_cnt, batch := st.batch,
              trace := st.trace ++ freeAreaLockedEvents cfg i } := by
          simp [scanFreeAreaStep, ho, hv, h.ret_eq]
        rw [hstep]
        refine ⟨rfl, h.cnt_eq, ?_⟩
        show List.Perm
          (isolList (st.trace ++ freeAreaLockedEvents cfg i))
          (relList (st.trace ++ freeAreaLockedEvents cfg i) ++
            batchTriples cfg.alloc st.batch)
        simpa [hile0, relList_freeAreaLockedEvents] using h.perm

theorem BPInv_foldl (cfg : HCfg) (l : List Nat) {st : BSt}
    (h : BPInv cfg st) :
    BPInv cfg (l.foldl (fun st i => scanFreeAreaStep cfg i st) st) := by
  induction l generalizing st with
  | nil => exact h
  | cons i tl ih => exact ih (BPInv_step cfg i h)

/-- Over a whole `scan_zone_free_area` run entered with `ret = 0`, the
isolations are a permutation of the releases, each with the same block
start pfn, order and migratetype. -/
theorem scanB_perm (cfg : HCfg) (bm : List Bool) (order0 : Nat) :
    List.Perm (isolList (scan_zone_free_area cfg bm false order0).trace)
      (relList (scan_zone_free_area cfg bm false order0).trace) := by
  have hF : BPInv cfg ((setIndices bm).foldl
      (fun st i => scanFreeAreaStep cfg i st) ⟨false, order0, 0, [], []⟩) :=
    BPInv_foldl cfg _
      ⟨rfl, rfl, by simp [isolList, relList, evJoin, batchTriples]⟩
  by_cases hc : ((setIndices bm).foldl
      (fun st i => scanFreeAreaStep cfg i st)
      ⟨false, order0, 0, [], []⟩).isolated_cnt ≠ 0
  · have hscan : (scan_zone_free_area cfg bm false order0).trace =
        ((setIndices bm).foldl (fun st i => scanFreeAreaStep cfg i st)
            ⟨false, order0, 0, [], []⟩).trace ++
          [.report ((setIndices bm).foldl
              (fun st i => scanFreeAreaStep cfg i st)
              ⟨false, order0, 0, [], []⟩).batch]
          ++ release_isolated_pages cfg ((setIndices bm).foldl
              (fun st i => scanFreeAreaStep cfg i st)
              ⟨false, order0, 0, [], []⟩).batch := by
      simp only [scan_zone_free_area, if_pos hc]
    rw [hscan]
    set F := (setIndices bm).foldl (fun st i => scanFreeAreaStep cfg i st)
      ⟨false, order0, 0, [], []⟩ with hFdef
    have eir2 : isolList [Ev.report F.batch] = [] := by
      simp [isolList, evJoin, isolOf]
    have err2 : relList [Ev.report F.batch] = [] := by
      simp [relList, evJoin, relOf]
    simpa [eir2, err2, isolList_cons, relList_cons, isolOf, relOf,
      isolList_release_isolated_pages, relList_release_isolated_pages,
      batchTriples] using hF.perm
  · have hscan : (scan_zone_free_area cfg bm false order0).trace =
        ((setIndices bm).foldl (fun st i => scanFreeAreaStep cfg i st)
          ⟨false, order0, 0, [], []⟩).trace := by
      simp only [scan_zone_free_area, if_neg hc]
    rw [hscan]
    have hb : ((setIndices bm).foldl (fun st i => scanFreeAreaStep cfg i st)
        ⟨false, order0, 0, [], []⟩).batch = [] := by
      have h2 := hF.cnt_eq
      have h3 : ((setIndices bm).foldl
          (fun st i => scanFreeAreaStep cfg i st)
          ⟨false, order0, 0, [], []⟩).isolated_cnt = 0 :=
        not_ne_iff.mp hc
      rw [h3] at h2
      exact (List.length_eq_zero.mp h2.symm)
    have h4 := hF.perm
    rw [hb] at h4
    simpa [batchTriples] using h4

/-! ### Heap accounting for the enable paths -/

/-- The heap ids a published `zone_reporting_bitmap` owns, in allocation
order (struct first, then bitmap). -/
def zoneIds (z : Option PubRB) : List Nat :=
  match z with
  | none => []
  | some rb => rb.structId :: (match rb.bitmapId with
      | none => []
      | some b => [b])

/-- All heap ids owned by published zone slots, in order. -/
def pubIdsR (zs : List (Option PubRB)) : List Nat :=
  match zs with
  | [] => []
  | z :: rest => zoneIds z ++ pubIdsR rest

theorem pubIdsR_append (a b : List (Option PubRB)) :
    pubIdsR (a ++ b) = pubIdsR a ++ pubIdsR b := by
  induction a with
  | nil => simp [pubIdsR]
  | cons z tl ih => simp [pubIdsR, ih]

theorem pubIdsR_replicate_none (n : Nat) :
    pubIdsR (List.replicate n none) = [] := by
  induction n with
  | zero => rfl
  | succ m ih => simp [pubIdsR, zoneIds, List.replicate, ih]

theorem filter_bne_of_not_mem {l : List Nat} {a : Nat} (h : a ∉ l) :
    l.filter (fun x => x != a) = l := by
  refine List.filter_eq_self.mpr ?_
  intro x hx
  simp only [bne_iff_ne, ne_eq, decide_eq_true_eq]
  intro hxa
  exact h (hxa ▸ hx)

theorem set_append_length {α : Type} (front : List α) (x y : α)
    (rest : List α) :
    (front ++ x :: rest).set front.length y = front ++ y :: rest := by
  induction front with
  | nil => simp
  | cons a tl ih => simp [List.set, ih]

theorem filter_not_mem_self (P : List Nat) :
    P.filter (fun x => decide (x ∉ P)) = [] := by
  refine List.filter_eq_nil_iff.mpr ?_
  intro a ha
  simp [ha]

theorem filter_not_mem_of_disjoint {L P : List Nat}
    (h : ∀ x ∈ L, x ∉ P) :
    L.filter (fun x => decide (x ∉ P)) = L := by
  refine List.filter_eq_self.mpr ?_
  intro a ha
  simp [h a ha]

theorem zone_reporting_cleanup_live (cp : Bool) (zs : List (Option PubRB))
    (hp : Heap) :
    (zone_reporting_cleanup ⟨cp, zs, hp⟩).heap.live =
      hp.live.filter (fun x => decide (x ∉ pubIdsR zs)) := by
  suffices h : ∀ (zs : List (Option PubRB)) (h0 : Heap),
      (zs.foldl (fun h z =>
        match z with
        | none => h
        | some rb => hfree rb.structId (match rb.bitmapId with
            | none => h
            | some b => hfree b h)) h0).live =
      h0.live.filter (fun x => decide (x ∉ pubIdsR zs)) by
    simpa [zone_reporting_cleanup] using h zs hp
  intro zs
  induction zs with
  | nil =>
    intro h0
    simp [pubIdsR]
  | cons z rest ih =>
    intro h0
    cases z with
    | none =>
      simp only [List.foldl_cons]
      rw [ih]
      simp [pubIdsR, zoneIds]
    | some rb =>
      simp only [List.foldl_cons]
      rw [ih]
      cases hbid : rb.bitmapId with
      | none =>
        simp only [hfree]
        rw [List.filter_filter]
        refine List.filter_congr ?_
        intro x hx
        by_cases h1 : x ∈ pubIdsR rest <;>
          by_cases h2 : x = rb.structId <;>
          simp [pubIdsR, zoneIds, hbid, h1, h2]
      | some b =>
        simp only [hfree]
        rw [List.filter_filter, List.filter_filter]
        refine List.filter_congr ?_
        intro x hx
        by_cases h1 : x ∈ pubIdsR rest <;>
          by_cases h2 : x = rb.structId <;>
          by_cases h3 : x = b <;>
          simp [pubIdsR, zoneIds, hbid, h1, h2, h3]

theorem zone_reporting_init_go_spec (ok : Nat → Bool) (zds : List RZone)
    (cp : Bool) :
    ∀ (front : List (Option PubRB)) (hp : Heap) (L0 : List Nat),
    hp.live = L0 ++ pubIdsR front →
    (∀ x ∈ hp.live, x < hp.next) →
    (L0 ++ pubIdsR front).Nodup →
    (zone_reporting_init_go ok zds front.length
        ⟨cp, front ++ List.replicate zds.length none, hp⟩).1 < 0 →
    (zone_reporting_init_go ok zds front.length
        ⟨cp, front ++ List.replicate zds.length none, hp⟩).2.conf_published
        = cp ∧
    (∀ z ∈ (zone_reporting_init_go ok zds front.length
        ⟨cp, front ++ List.replicate zds.length none, hp⟩).2.zones,
        z = none) ∧
    ((zone_reporting_init_go ok zds front.length
        ⟨cp, front ++ List.replicate zds.length none, hp⟩).2.heap.live = L0
      ∨ ∃ s, (zone_reporting_init_go ok zds front.length
        ⟨cp, front ++ List.replicate zds.length none, hp⟩).2.heap.live
          = L0 ++ [s]) := by
  induction zds with
  | nil =>
    intro front hp L0 hlive hbound hnd herr
    simp [zone_reporting_init_go] at herr
  | cons z rest ih =>
    intro front hp L0 hlive hbound hnd herr
    have hdisj : ∀ x ∈ L0, x ∉ pubIdsR front :=
      fun x hx => (List.nodup_append.mp hnd).2.2 hx
    have hPsub : ∀ x ∈ pubIdsR front, x ∈ hp.live := by
      intro x hx
      rw [hlive]
      exact List.mem_append.mpr (Or.inr hx)
    by_cases hok0 : ok hp.next = true
    · by_cases hok1 : ok (hp.next + 1) = true
      · -- both allocations of this zone succeed: recurse
        have hred : zone_reporting_init_go ok (z :: rest) front.length
            ⟨cp, front ++ List.replicate (z :: rest).length none, hp⟩ =
            zone_reporting_init_go ok rest (front.length + 1)
              ⟨cp, (front ++ [some ⟨hp.next, some (hp.next + 1),
                  z.zone_start_pfn, z.zone_end_pfn,
                  ((z.zone_end_pfn - z.zone_start_pfn) >>>
                    PAGE_REPORTING_MIN_ORDER) + 1⟩]) ++
                List.replicate rest.length none,
                ⟨hp.next + 2, (hp.live ++ [hp.next]) ++ [hp.next + 1]⟩⟩ := by
          simp only [zone_reporting_init_go, halloc, hok0, hok1, if_true,
            List.length_cons, List.replicate_succ, Nat.succ_ne_zero,
            ite_true, ite_false, if_false]
          rw [set_append_length]
          simp [List.append_assoc]
        rw [hred] at herr ⊢
        have hfl : (front ++ [some (⟨hp.next, some (hp.next + 1),
            z.zone_start_pfn, z.zone_end_pfn,
            ((z.zone_end_pfn - z.zone_start_pfn) >>>
              PAGE_REPORTING_MIN_ORDER) + 1⟩ : PubRB)]).length =
            front.length + 1 := by
          simp
        rw [← hfl] at herr ⊢
        refine ih _ _ L0 ?_ ?_ ?_ herr
        · show (hp.live ++ [hp.next]) ++ [hp.next + 1] = _
          rw [pubIdsR_append, hlive]
          simp [pubIdsR, zoneIds, List.append_assoc]
        · intro x hx
          show x < hp.next + 2
          rcases List.mem_append.mp hx with h1 | h1
          · rcases List.mem_append.mp h1 with h2 | h2
            · have := hbound x h2
              omega
            · simp at h2
              omega
          · simp at h1
            omega
        · rw [pubIdsR_append]
          have e1 : pubIdsR [some (⟨hp.next, some (hp.next + 1),
              z.zone_start_pfn, z.zone_end_pfn,
              ((z.zone_end_pfn - z.zone_start_pfn) >>>
                PAGE_REPORTING_MIN_ORDER) + 1⟩ : PubRB)] =
              [hp.next, hp.next + 1] := by
            simp [pubIdsR, zoneIds]
          rw [e1, ← List.append_assoc]
          rw [List.nodup_append]
          refine ⟨hnd, ?_, ?_⟩
          · simp
          · intro x hx
            have hxlt : x < hp.next := by
              apply hbound
              rw [hlive]
              exact hx
            simp
            omega
      · -- the bitmap allocation for this zone fails: the struct leaks
        have hred : zone_reporting_init_go ok (z :: rest) front.length
            ⟨cp, front ++ List.replicate (z :: rest).length none, hp⟩ =
            (-12, zone_reporting_cleanup
              ⟨cp, front ++ List.replicate (z :: rest).length none,
                ⟨hp.next + 2, hp.live ++ [hp.next]⟩⟩) := by
          simp only [zone_reporting_init_go, halloc, hok0, hok1, if_true,
            Nat.succ_ne_zero, ite_true, ite_false, if_false,
            Bool.false_eq_true]
        rw [hred]
        refine ⟨rfl, ?_, ?_⟩
        · intro zz hzz
          simp only [zone_reporting_cleanup] at hzz
          obtain ⟨a, _, ha⟩ := List.mem_map.mp hzz
          exact ha.symm
        · right
          refine ⟨hp.next, ?_⟩
          rw [zone_reporting_cleanup_live]
          have e1 : pubIdsR (front ++
              List.replicate (z :: rest).length none) = pubIdsR front := by
            rw [pubIdsR_append, pubIdsR_replicate_none, List.append_nil]
          rw [e1]
          show (hp.live ++ [hp.next]).filter _ = _
          rw [List.filter_append, hlive, List.filter_append]
          rw [filter_not_mem_of_disjoint hdisj, filter_not_mem_self]
          have e2 : [hp.next].filter
              (fun x => decide (x ∉ pubIdsR front)) = [hp.next] := by
            refine filter_not_mem_of_disjoint ?_
            intro x hx hmem
            simp at hx
            have := hbound hp.next (hPsub _ (hx ▸ hmem))
            omega
          rw [e2]
          simp
    · -- the struct allocation for this zone fails: full rollback
      have hred : zone_reporting_init_go ok (z :: rest) front.length
          ⟨cp, front ++ List.replicate (z :: rest).length none, hp⟩ =
          (-12, zone_reporting_cleanup
            ⟨cp, front ++ List.replicate (z :: rest).length none,
              ⟨hp.next + 1, hp.live⟩⟩) := by
        simp only [zone_reporting_init_go, halloc, hok0, if_true,
          ite_true, ite_false, if_false, Bool.false_eq_true]
      rw [hred]
      refine ⟨rfl, ?_, ?_⟩
      · intro zz hzz
        simp only [zone_reporting_cleanup] at hzz
        obtain ⟨a, _, ha⟩ := List.mem_map.mp hzz
        exact ha.symm
      · left
        rw [zone_reporting_cleanup_live]
        have e1 : pubIdsR (front ++
            List.replicate (z :: rest).length none) = pubIdsR front := by
          rw [pubIdsR_append, pubIdsR_replicate_none, List.append_nil]
        rw [e1]
        show hp.live.filter _ = _
        rw [hlive, List.filter_append]
        rw [filter_not_mem_of_disjoint hdisj, filter_not_mem_self]
        simp

theorem page_reporting_enable_err (ok : Nat → Bool) (zds : List RZone)
    (herr : (page_reporting_enable ok zds
      ⟨false, List.replicate zds.length none, ⟨0, []⟩⟩).1 < 0) :
    (page_reporting_enable ok zds
      ⟨false, List.replicate zds.length none, ⟨0, []⟩⟩).2.conf_published
      = false ∧
    (∀ z ∈ (page_reporting_enable ok zds
      ⟨false, List.replicate zds.length none, ⟨0, []⟩⟩).2.zones,
      z = none) ∧
    (page_reporting_enable ok zds
      ⟨false, List.replicate zds.length none,
        ⟨0, []⟩⟩).2.heap.live.length ≤ 1 := by
  by_cases hok0 : ok 0 = true
  · have hred : page_reporting_enable ok zds
        ⟨false, List.replicate zds.length none, ⟨0, []⟩⟩ =
        (if (zone_reporting_init_go ok zds 0
            ⟨false, List.replicate zds.length none, ⟨1, [0]⟩⟩).1 < 0 then
          ((zone_reporting_init_go ok zds 0
              ⟨false, List.replicate zds.length none, ⟨1, [0]⟩⟩).1,
            { (zone_reporting_init_go ok zds 0
                ⟨false, List.replicate zds.length none, ⟨1, [0]⟩⟩).2 with
              heap := hfree 0 (zone_reporting_init_go ok zds 0
                ⟨false, List.replicate zds.length none,
                  ⟨1, [0]⟩⟩).2.heap })
        else (0, { (zone_reporting_init_go ok zds 0
            ⟨false, List.replicate zds.length none, ⟨1, [0]⟩⟩).2 with
          conf_published := true })) := by
      simp only [page_reporting_enable, halloc, hok0, if_true, ite_true,
        Bool.false_eq_true, if_false, ite_false, Nat.zero_add,
        List.nil_append]
    rw [hred] at herr ⊢
    by_cases hinit : (zone_reporting_init_go ok zds 0
        ⟨false, List.replicate zds.length none, ⟨1, [0]⟩⟩).1 < 0
    · have hspec := zone_reporting_init_go_spec ok zds false []
        ⟨1, [0]⟩ [0] (by simp [pubIdsR]) (by simp) (by simp [pubIdsR])
        (by simpa using hinit)
      rw [if_pos hinit]
      refine ⟨?_, ?_, ?_⟩
      · simpa using hspec.1
      · intro z hz
        refine hspec.2.1 z ?_
        simpa using hz
      · rcases hspec.2.2 with h1 | ⟨s, h1⟩
        · show (hfree 0 _).live.length ≤ 1
          simp only [hfree]
          rw [show (zone_reporting_init_go ok zds 0
              ⟨false, List.replicate zds.length none,
                ⟨1, [0]⟩⟩).2.heap.live = [0] from by simpa using h1]
          simp
        · show (hfree 0 _).live.length ≤ 1
          simp only [hfree]
          rw [show (zone_reporting_init_go ok zds 0
              ⟨false, List.replicate zds.length none,
                ⟨1, [0]⟩⟩).2.heap.live = [0] ++ [s] from by simpa using h1]
          rw [List.filter_append]
          have e1 : ([0] : List Nat).filter (fun x => x != 0) = [] := by
            simp
          rw [e1]
          simp only [List.nil_append]
          have := List.length_filter_le (fun x => x != 0) [s]
          simp at this ⊢
          omega
    · rw [if_neg hinit] at herr
      simp at herr
  · have hred : page_reporting_enable ok zds
        ⟨false, List.replicate zds.length none, ⟨0, []⟩⟩ =
        (-12, ⟨false, List.replicate zds.length none, ⟨1, []⟩⟩) := by
      simp only [page_reporting_enable, halloc, hok0, Bool.false_eq_true,
        if_false, ite_false]
    rw [hred]
    refine ⟨rfl, ?_, by simp⟩
    intro z hz
    exact List.eq_of_mem_replicate hz

theorem zone_reporting_init_go_ok (ok : Nat → Bool)
    (hok : ∀ n, ok n = true) (zds : List RZone) :
    ∀ k sys, (zone_reporting_init_go ok zds k sys).1 = 0 := by
  induction zds with
  | nil => intro k sys; rfl
  | cons z rest ih =>
    intro k sys
    simp only [zone_reporting_init_go, halloc, hok, if_true, ite_true,
      Nat.succ_ne_zero, ite_false, if_false]
    exact ih _ _

/-- Success path of `page_reporting_enable`: from a non-busy state with
every allocation succeeding, it returns 0 and publishes the
configuration. -/
theorem page_reporting_enable_ok (ok : Nat → Bool)
    (hok : ∀ n, ok n = true) (zds : List RZone) (sys : RepSys)
    (hidle : sys.conf_published = false) :
    (page_reporting_enable ok zds sys).1 = 0 ∧
    (page_reporting_enable ok zds sys).2.conf_published = true := by
  have h0 := zone_reporting_init_go_ok ok hok zds 0
    { sys with heap := (halloc ok sys.heap).2 }
  have hred : page_reporting_enable ok zds sys =
      (if (zone_reporting_init_go ok zds 0
          { sys with heap := (halloc ok sys.heap).2 }).1 < 0 then
        ((zone_reporting_init_go ok zds 0
            { sys with heap := (halloc ok sys.heap).2 }).1,
          { (zone_reporting_init_go ok zds 0
              { sys with heap := (halloc ok sys.heap).2 }).2 with
            heap := hfree sys.heap.next (zone_reporting_init_go ok zds 0
              { sys with heap := (halloc ok sys.heap).2 }).2.heap })
      else (0, { (zone_reporting_init_go ok zds 0
          { sys with heap := (halloc ok sys.heap).2 }).2 with
        conf_published := true })) := by
    simp only [page_reporting_enable, hidle, Bool.false_eq_true, if_false,
      ite_false]
    simp only [halloc, hok, if_true, ite_true]
  rw [hred, h0]
  simp

/-- Busy path of `page_reporting_enable`: `-EBUSY` and the state is
untouched. -/
theorem page_reporting_enable_busy (ok : Nat → Bool) (zds : List RZone)
    (sys : RepSys) (h : sys.conf_published = true) :
    page_reporting_enable ok zds sys = (-16, sys) := by
  simp [page_reporting_enable, h]

theorem zone_free_area_init_go_ok (ok : Nat → Bool)
    (hok : ∀ n, ok n = true) :
    ∀ n idx sys, (zone_free_area_init_go ok n idx sys).1 = 0 := by
  intro n
  induction n with
  | zero => intro idx sys; rfl
  | succ m ih =>
    intro idx sys
    simp only [zone_free_area_init_go, halloc, hok, if_true, ite_true]
    split
    · exact ih _ _
    · exact ih _ _
/-- Success path of the second variant's `page_hinting_enable`. -/
theorem page_hinting_enable_ok (ok : Nat → Bool)
    (hok : ∀ n, ok n = true) (zones : List (Nat × RZone)) (sys : H2Sys)
    (hidle : sys.conf_published = false) :
    (page_hinting_enable ok zones sys).1 = 0 ∧
    (page_hinting_enable ok zones sys).2.conf_published = true := by
  have h0 := zone_free_area_init_go_ok ok hok
  simp only [page_hinting_enable, hidle, Bool.false_eq_true, if_false,
    ite_false, halloc, hok, if_true, ite_true]
  rw [h0]
  simp
/-- Busy path of the second variant's `page_hinting_enable`. -/
theorem page_hinting_enable_busy (ok : Nat → Bool)
    (zones : List (Nat × RZone)) (sys : H2Sys)
    (h : sys.conf_published = true) :
    page_hinting_enable ok zones sys = (-16, sys) := by
  simp [page_hinting_enable, h]

/-- Heap ids of the bitmaps published in `bm_zone` slots (first variant). -/
def pubIdsH1 : List (Option PubBM) → List Nat
  | [] => []
  | none :: rest => pubIdsH1 rest
  | some pb :: rest => pb.bitmapId :: pubIdsH1 rest

theorem pubIdsH1_append (a b : List (Option PubBM)) :
    pubIdsH1 (a ++ b) = pubIdsH1 a ++ pubIdsH1 b := by
  induction a with
  | nil => simp [pubIdsH1]
  | cons z tl ih =>
    cases z <;> simp [pubIdsH1, ih]

theorem pubIdsH1_replicate_none (n : Nat) :
    pubIdsH1 (List.replicate n none) = [] := by
  induction n with
  | zero => rfl
  | succ m ih => simpa [List.replicate_succ, pubIdsH1] using ih

/-- Failure behaviour of the first variant's `page_hinting_enable` loop:
when it ends without publishing the callback (`hcb = false`, i.e. some
bitmap allocation failed), the zone lock is still held and the live heap is
exactly the bitmaps already published in `bm_zone` — nothing was freed and
no error is reported (the function returns no value at all). -/
theorem page_hinting_enable_v1_go_spec (ok : Nat → Bool)
    (zones : List RZone) :
    ∀ (front : List (Option PubBM)) (lk : Bool) (hp : Heap),
    hp.live = pubIdsH1 front →
    (page_hinting_enable_v1_go ok zones front.length
      ⟨false, front ++ List.replicate zones.length none, lk, hp⟩).hcb
        = false →
    (page_hinting_enable_v1_go ok zones front.length
      ⟨false, front ++ List.replicate zones.length none, lk, hp⟩).lockHeld
        = true ∧
    (page_hinting_enable_v1_go ok zones front.length
      ⟨false, front ++ List.replicate zones.length none, lk, hp⟩).heap.live
      = pubIdsH1 (page_hinting_enable_v1_go ok zones front.length
        ⟨false, front ++ List.replicate zones.length none,
          lk, hp⟩).bm_zone := by
  induction zones with
  | nil =>
    intro front lk hp hlive hfail
    simp [page_hinting_enable_v1_go] at hfail
  | cons z rest ih =>
    intro front lk hp hlive hfail
    by_cases hok0 : ok hp.next = true
    · have hred : page_hinting_enable_v1_go ok (z :: rest) front.length
          ⟨false, front ++ List.replicate (z :: rest).length none,
            lk, hp⟩ =
          page_hinting_enable_v1_go ok rest (front.length + 1)
            ⟨false, (front ++ [some ⟨hp.next, z.zone_start_pfn,
                find_bitmap_size (z.zone_end_pfn - z.zone_start_pfn)⟩]) ++
              List.replicate rest.length none, false,
              ⟨hp.next + 1, hp.live ++ [hp.next]⟩⟩ := by
        simp only [page_hinting_enable_v1_go, halloc, hok0, if_true,
          ite_true, List.length_cons, List.replicate_succ]
        rw [set_append_length]
        simp [List.append_assoc]
      rw [hred] at hfail ⊢
      have hfl : (front ++ [some (⟨hp.next, z.zone_start_pfn,
          find_bitmap_size (z.zone_end_pfn - z.zone_start_pfn)⟩ :
            PubBM)]).length = front.length + 1 := by
        simp
      rw [← hfl] at hfail ⊢
      refine ih _ false _ ?_ hfail
      show hp.live ++ [hp.next] = _
      rw [pubIdsH1_append, hlive]
      simp [pubIdsH1]
    · have hred : page_hinting_enable_v1_go ok (z :: rest) front.length
          ⟨false, front ++ List.replicate (z :: rest).length none,
            lk, hp⟩ =
          ⟨false, front ++ List.replicate (z :: rest).length none, true,
            ⟨hp.next + 1, hp.live⟩⟩ := by
        simp only [page_hinting_enable_v1_go, halloc, hok0,
          Bool.false_eq_true, if_false, ite_false]
      rw [hred]
      refine ⟨rfl, ?_⟩
      show hp.live = _
      rw [hlive, pubIdsH1_append, pubIdsH1_replicate_none]
      simp

/-! ### Test fixtures -/

/-- Allocator oracle: every page online and a free buddy block of order 9
(migratetype 1) everywhere. -/
def allocFree9 : Nat → PageInfo := fun _ => ⟨true, true, 9, 1⟩

/-- Allocator oracle: every page online and a free buddy block of order 10
(migratetype 1) everywhere. -/
def allocFree10 : Nat → PageInfo := fun _ => ⟨true, true, 10, 1⟩

/-- Allocator oracle: every page online but no block is a free buddy block
(e.g. everything was reallocated since being marked). -/
def allocNotBuddy : Nat → PageInfo := fun _ => ⟨true, false, 0, 0⟩

/-- Allocator oracle: no page is online. -/
def allocOffline : Nat → PageInfo := fun _ => ⟨false, false, 0, 0⟩

/-- A reporting scanner configuration over `allocFree9` with batch
capacity 2. -/
def cfgW : RepCfg := ⟨allocFree9, fun _ => true, fun _ => true, 2, 0⟩

/-- A hinting scanner configuration over `allocFree10` with batch
capacity 2. -/
def cfgHW : HCfg := ⟨allocFree10, fun _ => true, 2, 0⟩

/-! ### Claims -/

/-- The per-candidate ordering property as the specification states it: the
CI bit clear happens under the region lock and is ordered before the
re-validation read of allocator state. -/
def clearBeforeValidateUnderLock (es : List Ev) (i pfn : Nat) : Prop :=
  Ev.lock ∈ es ∧ Ev.unlock ∈ es ∧
  es.indexOf (Ev.clear i) < es.indexOf (Ev.validate pfn)

/-- C1 counterexample: in `scan_zone_free_area` the re-validation read
comes first and the clear of the CI bit comes after it (both inside the
lock), and in `scan_zone_bitmap` the zone lock is not even taken (the
lock/unlock pair is commented out), so the claimed
clear-before-re-validate-under-lock ordering fails on both scanners at a
concrete candidate. -/
theorem C1_counterexample :
    ¬ clearBeforeValidateUnderLock
        (freeAreaLockedEvents ⟨allocFree10, fun _ => true, 16, 0⟩ 0) 0
        (pfnOfBitH ⟨allocFree10, fun _ => true, 16, 0⟩ 0) ∧
    ¬ clearBeforeValidateUnderLock
        (bitEventsA ⟨allocFree9, fun _ => true, fun _ => true, 16, 0⟩ 0) 0
        (pfnOfBitR ⟨allocFree9, fun _ => true, fun _ => true, 16, 0⟩ 0) := by
  constructor
  · intro h
    have := h.2.2
    revert this
    decide
  · intro h
    have := h.1
    revert this
    decide

/-- C1 (amended): for every set bit handled with an online page, the
re-validation read of allocator state is ordered **before** the CI bit
clear.  In `scan_zone_free_area` both happen between the zone-lock acquire
and release; in `scan_zone_bitmap` the zone lock is never taken around
them (the locking is commented out in the source). -/
theorem C1_amended_theorem (cfgH : HCfg) (cfgR : RepCfg) (i j : Nat) :
    (∃ mid, freeAreaLockedEvents cfgH i =
        Ev.lock :: Ev.validate (pfnOfBitH cfgH i) :: (mid ++
          [Ev.clear i, Ev.unlock])) ∧
    (∃ mid, bitEventsA cfgR j =
        Ev.validate (pfnOfBitR cfgR j) :: (mid ++ [Ev.clear j])) ∧
    Ev.lock ∉ bitEventsA cfgR j ∧ Ev.unlock ∉ bitEventsA cfgR j := by
  refine ⟨?_, ?_, ?_, ?_⟩
  · by_cases hc : (cfgH.alloc (pfnOfBitH cfgH i)).buddy = true ∧
        PAGE_HINTING_MIN_ORDER ≤ (cfgH.alloc (pfnOfBitH cfgH i)).order ∧
        cfgH.isolateOk (pfnOfBitH cfgH i) = true
    · refine ⟨[Ev.isolate (pfnOfBitH cfgH i)
        (cfgH.alloc (pfnOfBitH cfgH i)).order
        (cfgH.alloc (pfnOfBitH cfgH i)).mt], ?_⟩
      simp [freeAreaLockedEvents, hc]
    · refine ⟨[], ?_⟩
      simp [freeAreaLockedEvents, hc]
  · by_cases hv : (cfgR.alloc (pfnOfBitR cfgR j)).buddy = true ∧
        PAGE_REPORTING_MIN_ORDER ≤ (cfgR.alloc (pfnOfBitR cfgR j)).order
    · by_cases hs : cfgR.startIsolateOk (pfnOfBitR cfgR j) = false
      · refine ⟨[Ev.isolfail (pfnOfBitR cfgR j)], ?_⟩
        simp [bitEventsA, scanBitOnline, process_free_page, hv, hs]
      · by_cases hp : cfgR.pagesIsolatedOk (pfnOfBitR cfgR j) = true
        · refine ⟨[Ev.isolate (pfnOfBitR cfgR j)
            (cfgR.alloc (pfnOfBitR cfgR j)).order
            (cfgR.alloc (pfnOfBitR cfgR j)).mt,
            Ev.append (pfnOfBitR cfgR j)
              (cfgR.alloc (pfnOfBitR cfgR j)).order], ?_⟩
          simp [bitEventsA, scanBitOnline, process_free_page, hv, hs, hp]
        · refine ⟨[Ev.isolate (pfnOfBitR cfgR j)
            (cfgR.alloc (pfnOfBitR cfgR j)).order
            (cfgR.alloc (pfnOfBitR cfgR j)).mt,
            Ev.undo (pfnOfBitR cfgR j)
              (cfgR.alloc (pfnOfBitR cfgR j)).order
              (cfgR.alloc (pfnOfBitR cfgR j)).mt], ?_⟩
          simp [bitEventsA, scanBitOnline, process_free_page, hv, hs, hp]
    · refine ⟨[], ?_⟩
      simp [bitEventsA, scanBitOnline, process_free_page, hv]
  · obtain ⟨dtr, db, hst, _, _, _, _, _⟩ :=
      scanBitOnline_delta cfgR j ⟨0, [], 0, []⟩
    by_cases hv : (cfgR.alloc (pfnOfBitR cfgR j)).buddy = true ∧
        PAGE_REPORTING_MIN_ORDER ≤ (cfgR.alloc (pfnOfBitR cfgR j)).order
    · by_cases hs : cfgR.startIsolateOk (pfnOfBitR cfgR j) = false
      · simp [bitEventsA, scanBitOnline, process_free_page, hv, hs]
      · by_cases hp : cfgR.pagesIsolatedOk (pfnOfBitR cfgR j) = true
        · simp [bitEventsA, scanBitOnline, process_free_page, hv, hs, hp]
        · simp [bitEventsA, scanBitOnline, process_free_page, hv, hs, hp]
    · simp [bitEventsA, scanBitOnline, process_free_page, hv]
  · by_cases hv : (cfgR.alloc (pfnOfBitR cfgR j)).buddy = true ∧
        PAGE_REPORTING_MIN_ORDER ≤ (cfgR.alloc (pfnOfBitR cfgR j)).order
    · by_cases hs : cfgR.startIsolateOk (pfnOfBitR cfgR j) = false
      · simp [bitEventsA, scanBitOnline, process_free_page, hv, hs]
      · by_cases hp : cfgR.pagesIsolatedOk (pfnOfBitR cfgR j) = true
        · simp [bitEventsA, scanBitOnline, process_free_page, hv, hs, hp]
        · simp [bitEventsA, scanBitOnline, process_free_page, hv, hs, hp]
    · simp [bitEventsA, scanBitOnline, process_free_page, hv]

/-- Hinting scanner configuration for the uninitialized-`ret` runs: the
page at every pfn is online but no longer a free buddy block, so
re-validation fails for every candidate. -/
def cfgC3 : HCfg := ⟨allocNotBuddy, fun _ => true, 16, 0⟩

/-- C2 counterexample: in the `scan_zone_free_area` run whose uninitialized
local `ret` enters the loop holding nonzero stack garbage (`ret0 = true`,
garbage `order0 = 7`), the single set bit maps to an online page that fails
the `PageBuddy` re-validation, yet `if (ret)` stages it and
`release_isolated_pages` frees it back: the scan performs no isolation but
one release, so the isolations are not a permutation of the releases (a
never-isolated block is released). -/
theorem C2_counterexample :
    isolList (scan_zone_free_area cfgC3 [true] true 7).trace = [] ∧
    relList (scan_zone_free_area cfgC3 [true] true 7).trace = [(0, 7, 0)] ∧
    ¬ List.Perm (isolList (scan_zone_free_area cfgC3 [true] true 7).trace)
      (relList (scan_zone_free_area cfgC3 [true] true 7).trace) :=
  ⟨by decide, by decide, fun hp => absurd hp.length_eq (by decide)⟩

/-- C2 (amended): the isolations of a whole scan are a permutation of its
releases, each with the same block start pfn, order and migratetype, for
the reporting scanner `scan_zone_bitmap` unconditionally (immediate
`undo_isolate_page_range` of blocks failing the post-isolation check, plus
`__return_isolated_page` of every batched block after its report), and for
every `scan_zone_free_area` run whose uninitialized local `ret` happens to
enter the loop holding zero (`free_one_page` of every batched block after
its report); with nonzero garbage in `ret` the property fails. -/
theorem C2_amended_theorem (cfgR : RepCfg) (hmax : 1 ≤ cfgR.max_pages)
    (bmR : List Bool) (fp0 : Int) (cfgH : HCfg) (bmH : List Bool)
    (order0 : Nat) :
    List.Perm (isolList (scan_zone_bitmap cfgR bmR fp0).trace)
      (relList (scan_zone_bitmap cfgR bmR fp0).trace) ∧
    List.Perm (isolList (scan_zone_free_area cfgH bmH false order0).trace)
      (relList (scan_zone_free_area cfgH bmH false order0).trace) :=
  ⟨(scanA_facts cfgR hmax bmR fp0).1, scanB_perm cfgH bmH order0⟩

/-- C2 witness: the isolations-equal-releases permutation evaluated on a
concrete two-bit reporting scan with batch capacity 2 and a concrete
two-bit `scan_zone_free_area` run entered with `ret = 0`. -/
theorem C2_amended_witness :
    1 ≤ cfgW.max_pages ∧
    (List.Perm (isolList (scan_zone_bitmap cfgW [true, true] 0).trace)
       (relList (scan_zone_bitmap cfgW [true, true] 0).trace) ∧
     List.Perm
       (isolList (scan_zone_free_area cfgHW [true, true] false 0).trace)
       (relList (scan_zone_free_area cfgHW [true, true] false 0).trace)) :=
  ⟨by decide,
   C2_amended_theorem cfgW (by decide) [true, true] 0 cfgHW [true, true] 0⟩

/-- C3 code-bug evaluation: in `scan_zone_free_area` the locals `ret` and
`order` are declared uninitialized and `ret` is only reset at the END of
each loop body, so on the first processed bit whose block fails
re-validation, `if (ret)` reads the indeterminate initial value.  With
stack garbage `ret0 = true` (and garbage `order0 = 7`) the non-free block
is appended to the staging batch and reaches the report callback; with
`ret0 = false` nothing is reported.  The claim (a bit failing re-validation
contributes nothing) therefore does not hold of the code. -/
theorem C3_code_bug_eval :
    (cfgC3.alloc (pfnOfBitH cfgC3 0)).buddy = false ∧
    reportedEntries (scan_zone_free_area cfgC3 [true] true 7).trace =
      [(0, 7)] ∧
    reportedEntries (scan_zone_free_area cfgC3 [true] false 7).trace
      = [] := by
  refine ⟨by decide, by decide, by decide⟩

/-- C4: every batch either scanner hands to the report callback has length
between 1 and `max_pages`; full batches are emitted exactly at `max_pages`
(every batch except possibly the trailing partial one has length exactly
`max_pages`), and a trailing partial batch is emitted only when non-empty.
For `scan_zone_free_area` this holds for any initial values of its
uninitialized locals. -/
theorem C4_theorem (cfgR : RepCfg) (cfgH : HCfg)
    (hmaxR : 1 ≤ cfgR.max_pages) (hmaxH : 1 ≤ cfgH.max_pages)
    (bmR bmH : List Bool) (fp0 : Int) (ret0 : Bool) (order0 : Nat) :
    (∀ l ∈ reportLens (scan_zone_bitmap cfgR bmR fp0).trace,
      1 ≤ l ∧ l ≤ cfgR.max_pages) ∧
    (∀ l ∈ (reportLens (scan_zone_bitmap cfgR bmR fp0).trace).dropLast,
      l = cfgR.max_pages) ∧
    (∀ l ∈ reportLens (scan_zone_free_area cfgH bmH ret0 order0).trace,
      1 ≤ l ∧ l ≤ cfgH.max_pages) ∧
    (∀ l ∈ (reportLens
        (scan_zone_free_area cfgH bmH ret0 order0).trace).dropLast,
      l = cfgH.max_pages) :=
  ⟨(scanA_facts cfgR hmaxR bmR fp0).2.2.1,
   (scanA_facts cfgR hmaxR bmR fp0).2.2.2,
   (scanB_lens cfgH hmaxH bmH ret0 order0).1,
   (scanB_lens cfgH hmaxH bmH ret0 order0).2⟩

/-- C4 witness: batch bounds evaluated on concrete three-bit scans with
batch capacity 2 (one full batch of 2 and one trailing partial of 1). -/
theorem C4_witness :
    1 ≤ cfgW.max_pages ∧ 1 ≤ cfgHW.max_pages ∧
    ((∀ l ∈ reportLens
        (scan_zone_bitmap cfgW [true, true, true] 0).trace,
      1 ≤ l ∧ l ≤ cfgW.max_pages) ∧
    (∀ l ∈ (reportLens
        (scan_zone_bitmap cfgW [true, true, true] 0).trace).dropLast,
      l = cfgW.max_pages) ∧
    (∀ l ∈ reportLens
        (scan_zone_free_area cfgHW [true, true, true] false 0).trace,
      1 ≤ l ∧ l ≤ cfgHW.max_pages) ∧
    (∀ l ∈ (reportLens
        (scan_zone_free_area cfgHW [true, true, true]
          false 0).trace).dropLast,
      l = cfgHW.max_pages)) :=
  ⟨by decide, by decide,
    C4_theorem cfgW cfgHW (by decide) (by decide) [true, true, true]
      [true, true, true] 0 false 0⟩

/-- C5 code-bug evaluation: the enqueue hooks do filter sub-minimum orders
(for every order of the form `min order 8`, i.e. every order below
`PAGE_REPORTING_MIN_ORDER`, `page_reporting_enqueue` is the identity, and
likewise `page_hinting_enqueue` below `PAGE_HINTING_MIN_ORDER`), but the
claim's second half — no entry handed to the report callback ever has order
below the minimum — fails: through the uninitialized `ret`/`order` locals
of `scan_zone_free_area`, a block that failed re-validation is reported
with garbage order 3 < `PAGE_HINTING_MIN_ORDER`. -/
theorem C5_code_bug_eval :
    (∀ st pfn order, page_reporting_enqueue pfn (min order 8) st = st) ∧
    (∀ st pfn z order, page_hinting_enqueue pfn z (min order 9) st = st) ∧
    reportedEntries (scan_zone_free_area cfgC3 [true] true 3).trace =
      [(0, 3)] ∧
    3 < PAGE_HINTING_MIN_ORDER := by
  refine ⟨?_, ?_, by decide, by decide⟩
  · intro st pfn order
    have hlt : min order 8 < PAGE_REPORTING_MIN_ORDER := by
      have := Nat.min_le_right order 8
      simp only [PAGE_REPORTING_MIN_ORDER]
      omega
    simp [page_reporting_enqueue, hlt]
  · intro st pfn z order
    have h : ¬(st.hcb = true ∧ PAGE_HINTING_MIN_ORDER ≤ min order 9) := by
      intro hc
      have h1 := Nat.min_le_right order 9
      have h2 := hc.2
      simp only [PAGE_HINTING_MIN_ORDER, MAX_ORDER] at h2
      omega
    simp only [page_hinting_enqueue]
    rw [if_neg h]

/-- Allocation oracle for the C6 counterexample: the scatterlist `kcalloc`
and the zone-struct `kmalloc` succeed, the zone's `bitmap_zalloc` fails. -/
def okC6 : Nat → Bool := fun n => n < 2

/-- C6 counterexample: with the scatterlist and zone-struct allocations
succeeding and the zone's bitmap allocation failing,
`page_reporting_enable` does return `-ENOMEM`, but the `kmalloc`-ed
`zone_reporting_bitmap` struct of the failing zone (heap id 1) is never
freed — `zone_reporting_cleanup` only reaches published structs — so not
every allocation made so far is freed and the pre-call state is not
restored.  `page_hinting_enable` (first variant) is worse: on a bitmap
allocation failure for the second zone it returns no error at all
(`void`), leaves the first zone's bitmap allocated and still holds the
zone lock. -/
theorem C6_counterexample :
    ((page_reporting_enable okC6 [⟨0, 512⟩]
        ⟨false, [none], ⟨0, []⟩⟩).1 < 0 ∧
      (page_reporting_enable okC6 [⟨0, 512⟩]
        ⟨false, [none], ⟨0, []⟩⟩).2.heap.live = [1] ∧
      (page_reporting_enable okC6 [⟨0, 512⟩]
        ⟨false, [none], ⟨0, []⟩⟩).2.heap.live ≠ []) ∧
    ((page_hinting_enable_v1 (fun n => n == 0) [⟨0, 512⟩, ⟨512, 1024⟩]
        ⟨false, [none, none], false, ⟨0, []⟩⟩).hcb = false ∧
      (page_hinting_enable_v1 (fun n => n == 0) [⟨0, 512⟩, ⟨512, 1024⟩]
        ⟨false, [none, none], false, ⟨0, []⟩⟩).heap.live = [0] ∧
      (page_hinting_enable_v1 (fun n => n == 0) [⟨0, 512⟩, ⟨512, 1024⟩]
        ⟨false, [none, none], false, ⟨0, []⟩⟩).lockHeld = true) := by
  refine ⟨⟨by decide, by decide, by decide⟩, by decide, by decide,
    by decide⟩

/-- C6 (amended): when an allocation fails during enable, no configuration
is published and — for `page_reporting_enable` — an error is returned and
every **published** per-zone structure is rolled back, but the
`zone_reporting_bitmap` struct `kmalloc`-ed for the zone whose bitmap
allocation failed is leaked (at most one object stays live).  For the first
variant's `page_hinting_enable`, a failure returns no error value (the
function is void), the `hcb` callback is not published, the zone lock
remains held, and the bitmaps of the zones initialized before the failure
remain allocated (nothing is freed). -/
theorem C6_amended_theorem (ok okv : Nat → Bool) (zds zones : List RZone)
    (herr : (page_reporting_enable ok zds
      ⟨false, List.replicate zds.length none, ⟨0, []⟩⟩).1 < 0)
    (hfail : (page_hinting_enable_v1 okv zones
      ⟨false, List.replicate zones.length none, false,
        ⟨0, []⟩⟩).hcb = false) :
    (page_reporting_enable ok zds
      ⟨false, List.replicate zds.length none, ⟨0, []⟩⟩).2.conf_published
      = false ∧
    (∀ z ∈ (page_reporting_enable ok zds
      ⟨false, List.replicate zds.length none, ⟨0, []⟩⟩).2.zones,
      z = none) ∧
    (page_reporting_enable ok zds
      ⟨false, List.replicate zds.length none,
        ⟨0, []⟩⟩).2.heap.live.length ≤ 1 ∧
    (page_hinting_enable_v1 okv zones
      ⟨false, List.replicate zones.length none, false,
        ⟨0, []⟩⟩).lockHeld = true ∧
    (page_hinting_enable_v1 okv zones
      ⟨false, List.replicate zones.length none, false,
        ⟨0, []⟩⟩).heap.live =
      pubIdsH1 (page_hinting_enable_v1 okv zones
        ⟨false, List.replicate zones.length none, false,
          ⟨0, []⟩⟩).bm_zone := by
  obtain ⟨h1, h2, h3⟩ := page_reporting_enable_err ok zds herr
  have hv1 := page_hinting_enable_v1_go_spec okv zones [] false ⟨0, []⟩
    (by simp [pubIdsH1]) hfail
  exact ⟨h1, h2, h3, hv1.1, hv1.2⟩

/-- C6 witness: the amended statement evaluated at the counterexample
inputs. -/
theorem C6_witness :
    (page_reporting_enable okC6 [⟨0, 512⟩]
      ⟨false, [none], ⟨0, []⟩⟩).2.conf_published = false ∧
    (∀ z ∈ (page_reporting_enable okC6 [⟨0, 512⟩]
      ⟨false, [none], ⟨0, []⟩⟩).2.zones, z = none) ∧
    (page_reporting_enable okC6 [⟨0, 512⟩]
      ⟨false, [none], ⟨0, []⟩⟩).2.heap.live.length ≤ 1 ∧
    (page_hinting_enable_v1 (fun n => n == 0) [⟨0, 512⟩, ⟨512, 1024⟩]
      ⟨false, [none, none], false, ⟨0, []⟩⟩).lockHeld = true ∧
    (page_hinting_enable_v1 (fun n => n == 0) [⟨0, 512⟩, ⟨512, 1024⟩]
      ⟨false, [none, none], false, ⟨0, []⟩⟩).heap.live =
      pubIdsH1 (page_hinting_enable_v1 (fun n => n == 0)
        [⟨0, 512⟩, ⟨512, 1024⟩]
        ⟨false, [none, none], false, ⟨0, []⟩⟩).bm_zone :=
  C6_amended_theorem okC6 (fun n => n == 0) [⟨0, 512⟩]
    [⟨0, 512⟩, ⟨512, 1024⟩] (by decide) (by decide)

/-- C7: calling enable while a configuration is already published returns
`-EBUSY` and leaves the entire state (published configuration, every
per-zone candidate index, the heap) unchanged; calling enable with no
active configuration and all allocations succeeding returns 0 and publishes
the new configuration.  Stated for `page_reporting_enable` and for the
second variant's `page_hinting_enable`. -/
theorem C7_theorem (ok : Nat → Bool) (zds : List RZone)
    (zones : List (Nat × RZone)) (sysR : RepSys) (sysH : H2Sys)
    (hok : ∀ n, ok n = true) :
    (sysR.conf_published = true →
      page_reporting_enable ok zds sysR = (-16, sysR)) ∧
    (sysR.conf_published = false →
      (page_reporting_enable ok zds sysR).1 = 0 ∧
      (page_reporting_enable ok zds sysR).2.conf_published = true) ∧
    (sysH.conf_published = true →
      page_hinting_enable ok zones sysH = (-16, sysH)) ∧
    (sysH.conf_published = false →
      (page_hinting_enable ok zones sysH).1 = 0 ∧
      (page_hinting_enable ok zones sysH).2.conf_published = true) :=
  ⟨fun h => page_reporting_enable_busy ok zds sysR h,
   fun h => page_reporting_enable_ok ok hok zds sysR h,
   fun h => page_hinting_enable_busy ok zones sysH h,
   fun h => page_hinting_enable_ok ok hok zones sysH h⟩

/-- C7 witness: both the busy rejection and the successful publication,
evaluated at concrete states. -/
theorem C7_witness :
    (page_reporting_enable (fun _ => true) [⟨0, 512⟩]
      ⟨true, [none], ⟨0, []⟩⟩ = (-16, ⟨true, [none], ⟨0, []⟩⟩)) ∧
    ((page_reporting_enable (fun _ => true) [⟨0, 512⟩]
      ⟨false, [none], ⟨0, []⟩⟩).1 = 0 ∧
     (page_reporting_enable (fun _ => true) [⟨0, 512⟩]
      ⟨false, [none], ⟨0, []⟩⟩).2.conf_published = true) ∧
    (page_hinting_enable (fun _ => true) [(0, ⟨0, 512⟩)]
      ⟨true, [⟨0, 0, none, 0⟩], ⟨0, []⟩⟩ =
      (-16, ⟨true, [⟨0, 0, none, 0⟩], ⟨0, []⟩⟩)) ∧
    ((page_hinting_enable (fun _ => true) [(0, ⟨0, 512⟩)]
      ⟨false, [⟨0, 0, none, 0⟩], ⟨0, []⟩⟩).1 = 0 ∧
     (page_hinting_enable (fun _ => true) [(0, ⟨0, 512⟩)]
      ⟨false, [⟨0, 0, none, 0⟩], ⟨0, []⟩⟩).2.conf_published = true) := by
  have h1 := C7_theorem (fun _ => true) [⟨0, 512⟩] [(0, ⟨0, 512⟩)]
    ⟨true, [none], ⟨0, []⟩⟩ ⟨true, [⟨0, 0, none, 0⟩], ⟨0, []⟩⟩
    (fun _ => rfl)
  have h2 := C7_theorem (fun _ => true) [⟨0, 512⟩] [(0, ⟨0, 512⟩)]
    ⟨false, [none], ⟨0, []⟩⟩ ⟨false, [⟨0, 0, none, 0⟩], ⟨0, []⟩⟩
    (fun _ => rfl)
  exact ⟨h1.1 rfl, h2.2.1 rfl, h1.2.2.1 rfl, h2.2.2.2 rfl⟩
theorem bitmap_set_bit_already (pfn bp nb : Nat) (fp : Int)
    (bmp : List Bool)
    (ht : testBit bmp (bitnrOfR ⟨some bmp, bp, nb, fp⟩ pfn) = true) :
    bitmap_set_bit pfn ⟨some bmp, bp, nb, fp⟩ = ⟨some bmp, bp, nb, fp⟩ := by
  simp only [bitmap_set_bit, ht, if_true, ite_true, setBit_of_testBit ht]
  split <;> rfl

theorem bm_set_pfn_already (pfn bp nb : Nat) (fp : Int)
    (bmp : List Bool)
    (ht : testBit bmp (bitnrOfH ⟨some bmp, bp, nb, fp⟩ pfn) = true) :
    bm_set_pfn pfn ⟨some bmp, bp, nb, fp⟩ = ⟨some bmp, bp, nb, fp⟩ := by
  simp only [bm_set_pfn, ht, if_true, ite_true, setBit_of_testBit ht]
  split <;> rfl

theorem bitmap_set_bit_idem (pfn : Nat) (rb : RBitmap) (hwf : rb.WF) :
    bitmap_set_bit pfn (bitmap_set_bit pfn rb) = bitmap_set_bit pfn rb := by
  obtain ⟨ob, bp, nb, fp⟩ := rb
  cases ob with
  | none => rfl
  | some bmp =>
    have hlen : nb ≤ bmp.length := hwf bmp rfl
    by_cases hlt : bitnrOfR ⟨some bmp, bp, nb, fp⟩ pfn < nb
    · by_cases ht : testBit bmp (bitnrOfR ⟨some bmp, bp, nb, fp⟩ pfn) = true
      · have h := bitmap_set_bit_already pfn bp nb fp bmp ht
        rw [h, h]
      · have hstep : bitmap_set_bit pfn ⟨some bmp, bp, nb, fp⟩ =
            ⟨some (setBit bmp (bitnrOfR ⟨some bmp, bp, nb, fp⟩ pfn)),
              bp, nb, fp + 1⟩ := by
          simp only [bitmap_set_bit]
          rw [if_pos hlt, if_neg ht]
        rw [hstep]
        apply bitmap_set_bit_already
        apply testBit_setBit_self
        show bitnrOfR ⟨some bmp, bp, nb, fp⟩ pfn < bmp.length
        omega
    · have hstep : bitmap_set_bit pfn ⟨some bmp, bp, nb, fp⟩ =
          ⟨some bmp, bp, nb, fp⟩ := by
        simp only [bitmap_set_bit]
        rw [if_neg hlt]
      rw [hstep, hstep]

theorem bm_set_pfn_idem (pfn : Nat) (rb : RBitmap) (hwf : rb.WF) :
    bm_set_pfn pfn (bm_set_pfn pfn rb) = bm_set_pfn pfn rb := by
  obtain ⟨ob, bp, nb, fp⟩ := rb
  cases ob with
  | none => rfl
  | some bmp =>
    have hlen : nb ≤ bmp.length := hwf bmp rfl
    by_cases hlt : bitnrOfH ⟨some bmp, bp, nb, fp⟩ pfn < nb
    · by_cases ht : testBit bmp (bitnrOfH ⟨some bmp, bp, nb, fp⟩ pfn) = true
      · have h := bm_set_pfn_already pfn bp nb fp bmp ht
        rw [h, h]
      · have hstep : bm_set_pfn pfn ⟨some bmp, bp, nb, fp⟩ =
            ⟨some (setBit bmp (bitnrOfH ⟨some bmp, bp, nb, fp⟩ pfn)),
              bp, nb, fp + 1⟩ := by
          simp only [bm_set_pfn]
          rw [if_pos hlt, if_neg ht]
        rw [hstep]
        apply bm_set_pfn_already
        apply testBit_setBit_self
        show bitnrOfH ⟨some bmp, bp, nb, fp⟩ pfn < bmp.length
        omega
    · have hstep : bm_set_pfn pfn ⟨some bmp, bp, nb, fp⟩ =
          ⟨some bmp, bp, nb, fp⟩ := by
        simp only [bm_set_pfn]
        rw [if_neg hlt]
      rw [hstep, hstep]

/-- C8: marking is idempotent.  A second mark of the same block is the
identity on the candidate index (for well-formed indices, in all three mark
functions — `bitmap_set_bit_h` is definitionally `bm_set_pfn`); a mark
whose bit is already set changes nothing (in particular `free_pages` is not
double-incremented); a mark of an unset in-range bit sets exactly that bit
and increments `free_pages` by one; and within one `scan_zone_bitmap` run
the reported block pfns are strictly increasing, so a block marked twice is
reported at most once per scan. -/
theorem C8_theorem (rb : RBitmap) (pfn : Nat) (hwf : rb.WF)
    (cfg : RepCfg) (hmax : 1 ≤ cfg.max_pages) (bm : List Bool)
    (fp0 : Int) :
    (bitmap_set_bit pfn (bitmap_set_bit pfn rb) = bitmap_set_bit pfn rb ∧
     bm_set_pfn pfn (bm_set_pfn pfn rb) = bm_set_pfn pfn rb) ∧
    (∀ bmp, rb.bitmap = some bmp →
      testBit bmp (bitnrOfR rb pfn) = true → bitmap_set_bit pfn rb = rb) ∧
    (∀ bmp, rb.bitmap = some bmp → bitnrOfR rb pfn < rb.nbits →
      testBit bmp (bitnrOfR rb pfn) = false →
      (bitmap_set_bit pfn rb).bitmap =
        some (setBit bmp (bitnrOfR rb pfn)) ∧
      (bitmap_set_bit pfn rb).free_pages = rb.free_pages + 1) ∧
    ((reportedEntries (scan_zone_bitmap cfg bm fp0).trace).map
      Prod.fst).Pairwise (· < ·) := by
  refine ⟨⟨bitmap_set_bit_idem pfn rb hwf, bm_set_pfn_idem pfn rb hwf⟩,
    ?_, ?_, scanA_reported_pfns_pairwise cfg hmax bm fp0⟩
  · intro bmp hb ht
    obtain ⟨ob, bp, nb, fp⟩ := rb
    cases hb
    exact bitmap_set_bit_already pfn bp nb fp bmp ht
  · intro bmp hb hlt ht
    obtain ⟨ob, bp, nb, fp⟩ := rb
    cases hb
    have hstep : bitmap_set_bit pfn ⟨some bmp, bp, nb, fp⟩ =
        ⟨some (setBit bmp (bitnrOfR ⟨some bmp, bp, nb, fp⟩ pfn)),
          bp, nb, fp + 1⟩ := by
      simp only [bitmap_set_bit]
      rw [if_pos hlt, if_neg (by simp [ht])]
    rw [hstep]
    exact ⟨rfl, rfl⟩

/-- A well-formed two-bit candidate index used for the C8 witness. -/
def rbW8 : RBitmap := ⟨some [false, false], 0, 2, 0⟩

/-- C8 witness: the mark properties evaluated at block 1 of a concrete
two-bit index and a concrete one-bit scan. -/
theorem C8_witness :
    rbW8.WF ∧ 1 ≤ cfgW.max_pages ∧
    ((bitmap_set_bit 512 (bitmap_set_bit 512 rbW8) =
        bitmap_set_bit 512 rbW8 ∧
      bm_set_pfn 512 (bm_set_pfn 512 rbW8) = bm_set_pfn 512 rbW8) ∧
    (∀ bmp, rbW8.bitmap = some bmp →
      testBit bmp (bitnrOfR rbW8 512) = true →
      bitmap_set_bit 512 rbW8 = rbW8) ∧
    (∀ bmp, rbW8.bitmap = some bmp → bitnrOfR rbW8 512 < rbW8.nbits →
      testBit bmp (bitnrOfR rbW8 512) = false →
      (bitmap_set_bit 512 rbW8).bitmap =
        some (setBit bmp (bitnrOfR rbW8 512)) ∧
      (bitmap_set_bit 512 rbW8).free_pages = rbW8.free_pages + 1) ∧
    ((reportedEntries (scan_zone_bitmap cfgW [true] 0).trace).map
      Prod.fst).Pairwise (· < ·)) := by
  have hwf : rbW8.WF := by
    intro bmp h
    simp only [rbW8] at h
    injection h with h
    rw [← h]
    decide
  exact ⟨hwf, by decide, C8_theorem rbW8 512 hwf cfgW (by decide) [true] 0⟩

/-- Configuration for the C9 non-termination run: one bit, and the page of
every pfn is offline, so `pfn_to_online_page` returns NULL. -/
def cfgC9 : H1Cfg := ⟨allocOffline, fun _ => true, 0, 1⟩

/-- C9 code-bug evaluation: in `scan_hinting_bitmap` the offline-page
`continue` re-enters the loop without advancing `start` and without
clearing the bit, so `find_next_bit` returns the same set bit forever: on a
bitmap with bit 0 set whose page is offline, the loop never terminates (for
every fuel bound the fuel-indexed model runs out rather than finishing),
contradicting the claim that every scan visits each bit at most once and
terminates. -/
theorem C9_code_bug_eval :
    ∀ fuel, scanHintingLoop cfgC9 fuel ⟨0, [true], 0, []⟩ = none := by
  intro fuel
  induction fuel with
  | zero => rfl
  | succ m ih =>
    have hf : find_next_bit [true] 1 0 = 0 := by
      rw [find_next_bit]
      simp [testBit]
    have hstep : scanHintingLoop cfgC9 (m + 1) ⟨0, [true], 0, []⟩ =
        scanHintingLoop cfgC9 m ⟨0, [true], 0, []⟩ := by
      simp only [scanHintingLoop]
      simp [cfgC9, hf, allocOffline]
    rw [hstep]
    exact ih

/-- C10: marking is bounds-safe.  With a NULL bitmap pointer the mark
functions are a total no-op; a computed bit index at or beyond `nbits`
(e.g. a pfn beyond the snapshotted bounds, including the wrap-around of the
unsigned `pfn - base_pfn`) leaves the state untouched; no bit position at
or beyond `nbits` is ever changed; and the invariant that every set bit
index is below `nbits` is preserved by marking, for both `bitmap_set_bit`
and `bm_set_pfn` (and hence `bitmap_set_bit_h`). -/
theorem C10_theorem (rb : RBitmap) (pfn : Nat) :
    (rb.bitmap = none →
      bitmap_set_bit pfn rb = rb ∧ bm_set_pfn pfn rb = rb) ∧
    (rb.nbits ≤ bitnrOfR rb pfn → bitmap_set_bit pfn rb = rb) ∧
    (rb.nbits ≤ bitnrOfH rb pfn → bm_set_pfn pfn rb = rb) ∧
    (∀ bmp bmp', rb.bitmap = some bmp →
      (bitmap_set_bit pfn rb).bitmap = some bmp' →
      ∀ j, rb.nbits ≤ j → testBit bmp' j = testBit bmp j) ∧
    (∀ bmp bmp', rb.bitmap = some bmp →
      (bitmap_set_bit pfn rb).bitmap = some bmp' →
      (∀ j, testBit bmp j = true → j < rb.nbits) →
      ∀ j, testBit bmp' j = true → j < rb.nbits) ∧
    (∀ bmp bmp', rb.bitmap = some bmp →
      (bm_set_pfn pfn rb).bitmap = some bmp' →
      (∀ j, testBit bmp j = true → j < rb.nbits) →
      ∀ j, testBit bmp' j = true → j < rb.nbits) := by
  obtain ⟨ob, bp, nb, fp⟩ := rb
  have hbbR : ∀ bmp, ob = some bmp →
      (bitnrOfR ⟨ob, bp, nb, fp⟩ pfn < nb →
        (bitmap_set_bit pfn ⟨ob, bp, nb, fp⟩).bitmap =
          some (setBit bmp (bitnrOfR ⟨ob, bp, nb, fp⟩ pfn))) ∧
      (nb ≤ bitnrOfR ⟨ob, bp, nb, fp⟩ pfn →
        bitmap_set_bit pfn ⟨ob, bp, nb, fp⟩ = ⟨ob, bp, nb, fp⟩) := by
    intro bmp hb
    cases hb
    constructor
    · intro hlt
      simp only [bitmap_set_bit]
      rw [if_pos hlt]
      split <;> rfl
    · intro hge
      simp only [bitmap_set_bit]
      rw [if_neg (Nat.not_lt.mpr hge)]
  have hbbH : ∀ bmp, ob = some bmp →
      (bitnrOfH ⟨ob, bp, nb, fp⟩ pfn < nb →
        (bm_set_pfn pfn ⟨ob, bp, nb, fp⟩).bitmap =
          some (setBit bmp (bitnrOfH ⟨ob, bp, nb, fp⟩ pfn))) ∧
      (nb ≤ bitnrOfH ⟨ob, bp, nb, fp⟩ pfn →
        bm_set_pfn pfn ⟨ob, bp, nb, fp⟩ = ⟨ob, bp, nb, fp⟩) := by
    intro bmp hb
    cases hb
    constructor
    · intro hlt
      simp only [bm_set_pfn]
      rw [if_pos hlt]
      split <;> rfl
    · intro hge
      simp only [bm_set_pfn]
      rw [if_neg (Nat.not_lt.mpr hge)]
  refine ⟨?_, ?_, ?_, ?_, ?_, ?_⟩
  · intro hb
    cases hb
    exact ⟨rfl, rfl⟩
  · intro hge
    cases ob with
    | none => rfl
    | some bmp => exact (hbbR bmp rfl).2 hge
  · intro hge
    cases ob with
    | none => rfl
    | some bmp => exact (hbbH bmp rfl).2 hge
  · intro bmp bmp' hb hb' j hj
    cases hb
    have hj2 : nb ≤ j := hj
    by_cases hlt : bitnrOfR ⟨some bmp, bp, nb, fp⟩ pfn < nb
    · rw [(hbbR bmp rfl).1 hlt] at hb'
      injection hb' with hb'
      rw [← hb']
      exact testBit_setBit_ne (by omega)
    · rw [(hbbR bmp rfl).2 (by omega)] at hb'
      injection hb' with hb'
      rw [← hb']
  · intro bmp bmp' hb hb' hinv j hj
    cases hb
    by_cases hlt : bitnrOfR ⟨some bmp, bp, nb, fp⟩ pfn < nb
    · rw [(hbbR bmp rfl).1 hlt] at hb'
      injection hb' with hb'
      by_cases hij : j = bitnrOfR ⟨some bmp, bp, nb, fp⟩ pfn
      · show j < nb
        omega
      · refine hinv j ?_
        rw [← hb'] at hj
        rw [testBit_setBit_ne hij] at hj
        exact hj
    · rw [(hbbR bmp rfl).2 (by omega)] at hb'
      injection hb' with hb'
      exact hinv j (hb' ▸ hj)
  · intro bmp bmp' hb hb' hinv j hj
    cases hb
    by_cases hlt : bitnrOfH ⟨some bmp, bp, nb, fp⟩ pfn < nb
    · rw [(hbbH bmp rfl).1 hlt] at hb'
      injection hb' with hb'
      by_cases hij : j = bitnrOfH ⟨some bmp, bp, nb, fp⟩ pfn
      · show j < nb
        omega
      · refine hinv j ?_
        rw [← hb'] at hj
        rw [testBit_setBit_ne hij] at hj
        exact hj
    · rw [(hbbH bmp rfl).2 (by omega)] at hb'
      injection hb' with hb'
      exact hinv j (hb' ▸ hj)

/-- C10 witness: the guards evaluated at a NULL-bitmap index and at a pfn
whose bit index falls outside a one-bit index. -/
theorem C10_witness :
    (bitmap_set_bit 7 ⟨none, 0, 0, 0⟩ = ⟨none, 0, 0, 0⟩ ∧
     bm_set_pfn 7 ⟨none, 0, 0, 0⟩ = ⟨none, 0, 0, 0⟩) ∧
    bitmap_set_bit 2560 ⟨some [false], 0, 1, 0⟩ =
      ⟨some [false], 0, 1, 0⟩ ∧
    bm_set_pfn 2560 ⟨some [false], 0, 1, 0⟩ = ⟨some [false], 0, 1, 0⟩ := by
  have h1 := C10_theorem ⟨none, 0, 0, 0⟩ 7
  have h2 := C10_theorem ⟨some [false], 0, 1, 0⟩ 2560
  exact ⟨h1.1 rfl, h2.2.1 (by decide), h2.2.2.1 (by decide)⟩

/-- C1 witness: the amended per-candidate ordering evaluated at bit 0 of
the concrete configurations. -/
theorem C1_amended_witness :
    (∃ mid, freeAreaLockedEvents cfgHW 0 =
        Ev.lock :: Ev.validate (pfnOfBitH cfgHW 0) :: (mid ++
          [Ev.clear 0, Ev.unlock])) ∧
    (∃ mid, bitEventsA cfgW 0 =
        Ev.validate (pfnOfBitR cfgW 0) :: (mid ++ [Ev.clear 0])) ∧
    Ev.lock ∉ bitEventsA cfgW 0 ∧ Ev.unlock ∉ bitEventsA cfgW 0 :=
  C1_amended_theorem cfgHW cfgW 0 0
